import Mathlib

/-!
Verification of the itinerary scheduling engine in `streamlit_app.py`
(disney-konzatsu-navi).

The embedding models the core functions of the source: the score/verdict
computation (`evaluate`), the wait/sellout/factor dataset lookups, the
slot computation (`earliest_possible_return_min`), the booking and
consumption steps (`book_one`, `do_booked`, `do_wait`) and the greedy
scheduler loop (`build_schedule`).

Modelling conventions:
- Python floats are modelled as `ℚ`; `float("nan")` cells are modelled as
  `Option ℚ` with `none` for NaN / missing columns.
- Python `int(round x)` uses banker's rounding (round half to even),
  modelled by `pyRound`; `int x` truncation toward zero is `pyInt`.
- Python `//` and `%` on ints are floor division / modulo, modelled by
  `Int.ediv` / `Int.emod`.
- String normalization (`norm_text`) is factored out of the model: dataset
  rows carry their normalized keys (the `_park_norm` / `_attr_norm`
  columns the loaders add) and plan keys are taken post-normalization, so
  a lookup is equality of normalized keys, as in the source.
-/

set_option allowUnsafeReducibility true in
attribute [semireducible] Rat.mul Rat.inv Rat.add Rat.sub Rat.ofScientific

/-- Banker's rounding on rationals: Python's built-in `round` (and the
`int(round(x))` idiom of the source) rounds half to even. -/
def pyRound (q : ℚ) : ℤ :=
  let f : ℤ := ⌊q⌋
  let frac : ℚ := q - (f : ℚ)
  if frac < 1/2 then f
  else if (1 : ℚ)/2 < frac then f + 1
  else if f % 2 = 0 then f else f + 1

/-- Python `int()` on a float: truncation toward zero. -/
def pyInt (q : ℚ) : ℤ := if 0 ≤ q then ⌊q⌋ else ⌈q⌉

/-- Zero-padding to two digits as in Python's `f"{h:02d}"` (for the
non-negative values that occur in rendered times). -/
def pad2 (n : ℤ) : String :=
  if 0 ≤ n ∧ n < 10 then "0" ++ toString n else toString n

/-- Source `minutes_to_hhmm`: render minutes-from-open as wall-clock text. -/
def minutesToHhmm (minFromOpen openHour : ℤ) : String :=
  let total := openHour * 60 + minFromOpen
  pad2 (Int.ediv total 60) ++ ":" ++ pad2 (Int.emod total 60)

/-- Source `hour_from_min`: the hour bucket of a minutes-from-open clock. -/
def hourFromMin (minFromOpen openHour : ℤ) : ℤ :=
  Int.ediv (openHour * 60 + minFromOpen) 60

/-- Python `f"{x:.0f}"` on the rationals we feed it. -/
def fmt0f (q : ℚ) : String := toString (pyRound q)

/-- Two-digit decimal rendering of a non-negative scaled integer. -/
def fmt2fCore (n : ℤ) : String :=
  toString (Int.ediv n 100) ++ "." ++ pad2 (Int.emod n 100)

/-- Python `f"{x:.2f}"` on the rationals we feed it. -/
def fmt2f (q : ℚ) : String :=
  let n := pyRound (q * 100)
  if n < 0 then "-" ++ fmt2fCore (-n) else fmt2fCore n

/-- Selection-mode string `MODE_WAIT` of the source. -/
def MODE_WAIT : String := "並ぶ"

/-- Selection-mode string `MODE_DPA` of the source. -/
def MODE_DPA : String := "DPA"

/-- Selection-mode string `MODE_PP` of the source. -/
def MODE_PP : String := "PP"

/-- Result dictionary of the source's `evaluate`. -/
structure EvalResult where
  limit : ℚ
  ratio : ℚ
  label : String
  message : String
  deriving DecidableEq

/-- Verdict label for ratio ≤ 0.75. -/
def evalLabel1 : String := "かなりラク（余白あり）"

/-- Verdict message for ratio ≤ 0.75. -/
def evalMsg1 : String := "待ち許容内に収めやすい構成です。ショー/休憩/偶然の寄り道も入れやすい。"

/-- Verdict label for 0.75 < ratio ≤ 1.00. -/
def evalLabel2 : String := "だいたいOK（計画通りなら成立）"

/-- Verdict message for 0.75 < ratio ≤ 1.00. -/
def evalMsg2 : String := "目安上限付近です。開園待ち・移動・食事の段取り次第で体感が変わります。"

/-- Verdict label for 1.00 < ratio ≤ 1.25. -/
def evalLabel3 : String := "けっこう大変（待ち・妥協が出やすい）"

/-- Verdict message for 1.00 < ratio ≤ 1.25. -/
def evalMsg3 : String := "どこかで待ち時間超過 or 予定変更が起きやすいです。『捨てる候補』を先に決めるのが安全。"

/-- Verdict label for ratio > 1.25. -/
def evalLabel4 : String := "無理寄り（超・計画職人向け）"

/-- Verdict message for ratio > 1.25. -/
def evalMsg4 : String := "この条件だと、待ち許容内を維持するのはかなり厳しめ。DPA/入園アドバンテージ前提に。"

/-- Source `evaluate`: classify the total score against a limit by fixed
ratio thresholds; a non-positive limit forces ratio 999. -/
def evaluate (totalPoints limit : ℚ) : EvalResult :=
  let ratio : ℚ := if 0 < limit then totalPoints / limit else 999
  if ratio ≤ 3/4 then ⟨limit, ratio, evalLabel1, evalMsg1⟩
  else if ratio ≤ 1 then ⟨limit, ratio, evalLabel2, evalMsg2⟩
  else if ratio ≤ 5/4 then ⟨limit, ratio, evalLabel3, evalMsg3⟩
  else ⟨limit, ratio, evalLabel4, evalMsg4⟩

/-- Task status in `build_schedule`'s internal state: `"todo"`, `"booked"`
or `"done"`. -/
inductive Status where
  | todo
  | booked
  | done
  deriving DecidableEq

/-- One entry of the `plans` list handed to `build_schedule`.  `duration`
is `none` when the plan row's duration is missing or NaN; `waitOverride`
is `none` for the NaN default of `wait_override_min`. -/
structure Plan where
  park : String
  attraction : String
  mode : String
  duration : Option ℚ
  waitOverride : Option ℚ
  deriving DecidableEq

/-- One entry of the mutable `tasks` list built at the top of
`build_schedule`. -/
structure SimTask where
  park : String
  attraction : String
  mode : String
  duration : ℚ
  status : Status
  returnMin : Option ℤ
  waitOverride : Option ℚ
  deriving DecidableEq

/-- One timeline row appended by `add_event` (or the idle block of the
main loop).  The source stores the rendered `minutes_to_hhmm` strings; the
embedding keeps the minute values those strings are rendered from
(`queueStart` is `none` when the row has no 列開始 entry). -/
structure Row where
  queueStart : Option ℤ
  startMin : ℤ
  endMin : ℤ
  park : String
  attraction : String
  mode : String
  memo : String
  deriving DecidableEq

/-- Ghost record of one successful booking made by `book_one`: the mode,
the simulated clock at booking time and the returned slot time.  Not in
the source state; used only to state trace properties of the run.  It does
not influence any other field. -/
structure BookEvent where
  mode : String
  bookedAt : ℤ
  slot : ℤ
  deriving DecidableEq

/-- One row of the wait dataset (`wait_{id}.csv` after loading): the
normalized keys and, per hour column, the numeric cell (`none` for NaN or
a non-numeric cell). -/
structure WaitRow where
  parkNorm : String
  attrNorm : String
  hours : List (ℤ × Option ℚ)
  deriving DecidableEq

/-- One row of the sellout dataset (`sellout_{id}.csv` after loading);
`none` models a NaN cell or a missing column. -/
structure SelloutRow where
  parkNorm : String
  attrNorm : String
  dpaSelloutHour : Option ℚ
  ppSelloutHour : Option ℚ
  deriving DecidableEq

/-- One row of the factor dataset (`factor_{id}.csv` after loading);
`none` models a NaN cell or a missing column. -/
structure FactorRow where
  parkNorm : String
  attrNorm : String
  dpaSelloutSpeed : Option ℚ
  ppSelloutSpeed : Option ℚ
  waitMultMorning : Option ℚ
  waitMultNoon : Option ℚ
  waitMultEvening : Option ℚ
  deriving DecidableEq

/-- The non-`plans` arguments of `build_schedule`, bundled. -/
structure Cfg where
  dfWait : List WaitRow
  dfSellout : List SelloutRow
  dfFactor : List FactorRow
  crowdStars : ℤ
  intervalMin : ℤ
  openHour : ℤ
  closeHour : ℤ
  deriving DecidableEq

/-- The mutable state of `build_schedule`'s main loop: the task list, the
simulated clock `t`, the two reservation rights (`next_dpa_buy_min`,
`next_pp_get_min`), the timeline and the notes, plus the ghost booking
log. -/
structure SimState where
  tasks : List SimTask
  t : ℤ
  nextDpa : ℤ
  nextPp : ℤ
  timeline : List Row
  notes : List String
  bookLog : List BookEvent
  deriving DecidableEq

/-- Source `get_wait_minutes`: wait minutes for a (park, attraction) at an
hour, with the 30.0-minute fallback on an empty dataset, a key miss, a
missing hour column or a NaN cell. -/
def getWaitMinutes (dfWait : List WaitRow) (park attr : String) (hour : ℤ) : ℚ :=
  if dfWait.isEmpty then 30
  else
    match dfWait.find? (fun r => r.parkNorm == park && r.attrNorm == attr) with
    | none => 30
    | some r =>
      match r.hours.find? (fun hc => hc.1 == hour) with
      | none => 30
      | some (_, none) => 30
      | some (_, some v) => v

/-- Source `get_sellout_hour`: the mode's sellout-hour entry for a
(park, attraction), truncated to an int; `none` on an empty dataset, a key
miss, a missing column or a NaN cell.  As in the source, any mode other
than `MODE_DPA` reads the `pp_sellout_hour` column. -/
def getSelloutHour (dfSellout : List SelloutRow) (park attr mode : String) : Option ℤ :=
  if dfSellout.isEmpty then none
  else
    match dfSellout.find? (fun r => r.parkNorm == park && r.attrNorm == attr) with
    | none => none
    | some r =>
      match (if mode == MODE_DPA then r.dpaSelloutHour else r.ppSelloutHour) with
      | none => none
      | some v => some (pyInt v)

/-- Source `factor_sellout_speed`: the mode's sellout-speed factor, 1.0 by
default. -/
def factorSelloutSpeed (dfFactor : List FactorRow) (park attr mode : String) : ℚ :=
  if dfFactor.isEmpty then 1
  else
    match dfFactor.find? (fun r => r.parkNorm == park && r.attrNorm == attr) with
    | none => 1
    | some r =>
      if mode == MODE_DPA then (r.dpaSelloutSpeed).getD 1
      else if mode == MODE_PP then (r.ppSelloutSpeed).getD 1
      else 1

/-- Source `factor_wait_multiplier`: time-of-day wait multiplier with
defaults morning 1.00, noon 1.15, evening 0.90, overridden per row when
the factor dataset has the row and a numeric cell.  The hour bands 9–11,
12–17, else are hardcoded in the source. -/
def factorWaitMultiplier (dfFactor : List FactorRow) (park attr : String) (hour : ℤ) : ℚ :=
  let defaults : ℚ × ℚ × ℚ := (1, 23/20, 9/10)
  let vals :=
    if dfFactor.isEmpty then defaults
    else
      match dfFactor.find? (fun r => r.parkNorm == park && r.attrNorm == attr) with
      | none => defaults
      | some r =>
        ((r.waitMultMorning).getD 1, (r.waitMultNoon).getD (23/20),
          (r.waitMultEvening).getD (9/10))
  if 9 ≤ hour ∧ hour ≤ 11 then vals.1
  else if 12 ≤ hour ∧ hour ≤ 17 then vals.2.1
  else vals.2.2

/-- The crowd-speed coefficient of `build_schedule` (`{3: 1.00, 2: 0.90,
1: 0.80}.get(crowd_stars, 0.90)`). -/
def crowdSpeed (stars : ℤ) : ℚ :=
  if stars = 3 then 1 else if stars = 2 then 9/10 else if stars = 1 then 4/5 else 9/10

/-- `T_CLOSE` of `build_schedule`: operating-window length in minutes. -/
def TCLOSE (cfg : Cfg) : ℤ := (cfg.closeHour - cfg.openHour) * 60

/-- The effective sellout hour computed inside
`earliest_possible_return_min`: the raw sellout-hour entry divided by the
crowd/speed coefficient (floored at 0.2) and rounded. -/
def effSelloutHour (cfg : Cfg) (park attr mode : String) : Option ℤ :=
  (getSelloutHour cfg.dfSellout park attr mode).map
    (fun raw => pyRound ((raw : ℚ) / max (1/5) (crowdSpeed cfg.crowdStars * factorSelloutSpeed cfg.dfFactor park attr mode)))

/-- The last hour bucket at which the mode is still bookable.  Per the
source comment on `get_sellout_hour` (sellout hour 13 means a purchase at
hour 13 or later is impossible), the last bookable hour is the effective
sellout hour minus one. -/
def lastBookableHour (cfg : Cfg) (park attr mode : String) : Option ℤ :=
  (effSelloutHour cfg park attr mode).map (fun e => e - 1)

/-- Source `earliest_possible_return_min`.  Its `while` loop always
returns during its first iteration (the candidate hour starts at the
current hour, and the `cand_hour == now_hour` branch returns `now_min`),
so the embedding is that single iteration: `none` when the effective
sellout hour is at or below the current hour bucket, or when the current
hour bucket is past `close_hour`; otherwise the current time itself. -/
def earliestPossibleReturnMin (cfg : Cfg) (task : SimTask) (nowMin : ℤ) : Option ℤ :=
  let nowHour := hourFromMin nowMin cfg.openHour
  match effSelloutHour cfg task.park task.attraction task.mode with
  | some e =>
    if e ≤ nowHour then none
    else if nowHour ≤ cfg.closeHour then some nowMin else none
  | none => if nowHour ≤ cfg.closeHour then some nowMin else none

/-- The note `book_one` appends when the mode's slot is sold out. -/
def selloutNote (attraction mode : String) : String :=
  attraction ++ "：" ++ mode ++ "枠が見つからず（売切れ想定）"

/-- The note `book_one` appends on a successful booking. -/
def bookNote (mode attraction : String) (ret openHour : ℤ) : String :=
  mode ++ "確保：" ++ attraction ++ "（" ++ minutesToHhmm ret openHour ++ "〜想定）"

/-- The memo of the row `do_wait` appends. -/
def waitMemo (baseWait mult : ℚ) (durMin : ℤ) : String :=
  "待ち=" ++ fmt0f baseWait ++ "分×係数" ++ fmt2f mult ++ " / 所要" ++ toString durMin ++ "分"

/-- The duration of a consume/ride row in minutes: the task's nominal
duration, clamped to 10.0 when non-positive (NaN cannot occur in the
rational model), then `int(round(...))` as in `do_booked` / `do_wait`. -/
def durOf (task : SimTask) : ℤ :=
  pyRound (if task.duration ≤ 0 then 10 else task.duration)

/-- The base wait of `do_wait`: the per-plan override when it is a number,
else the dataset lookup. -/
def waitBaseOf (cfg : Cfg) (task : SimTask) (hour : ℤ) : ℚ :=
  match task.waitOverride with
  | some w => w
  | none => getWaitMinutes cfg.dfWait task.park task.attraction hour

/-- The total queueing time of `do_wait`: base wait times the time-of-day
multiplier, rounded. -/
def waitTotalOf (cfg : Cfg) (task : SimTask) (hour : ℤ) : ℤ :=
  pyRound (waitBaseOf cfg task hour *
    factorWaitMultiplier cfg.dfFactor task.park task.attraction hour)

/-- Source `find_booked_ready`: the first index attaining the strictly
smallest `return_min` among booked tasks whose return time has arrived
(the source scans indices in order, keeping a strictly smaller return,
starting from the bound 10^9).  The embedding also returns the return
value found. -/
def findBookedReady (tasks : List SimTask) (nowMin : ℤ) : Option (ℕ × ℤ) :=
  match tasks with
  | [] => none
  | task :: rest =>
    let tail := (findBookedReady rest nowMin).map (fun p => (p.1 + 1, p.2))
    match task.status, task.returnMin with
    | .booked, some r =>
      if r ≤ nowMin ∧ r < 10^9 then
        match tail with
        | some (j, r') => if r' < r then some (j, r') else some (0, r)
        | none => some (0, r)
      else tail
    | _, _ => tail

/-- The scoring key of `book_one`: smaller sellout hour first (99 when
there is no sellout entry), then bigger sellout speed first. -/
def scoreOf (cfg : Cfg) (mode : String) (task : SimTask) : ℤ × ℚ :=
  ((getSelloutHour cfg.dfSellout task.park task.attraction mode).getD 99,
    -(factorSelloutSpeed cfg.dfFactor task.park task.attraction mode))

/-- Lexicographic strict order on the scoring key (Python tuple
comparison). -/
def scoreLt (a b : ℤ × ℚ) : Prop := a.1 < b.1 ∨ (a.1 = b.1 ∧ a.2 < b.2)

instance : DecidablePred (fun p : (ℤ × ℚ) × ℤ × ℚ => scoreLt p.1 p.2) :=
  fun p => by unfold scoreLt; infer_instance

instance (a b : ℤ × ℚ) : Decidable (scoreLt a b) := by unfold scoreLt; infer_instance

/-- The candidate selection of `book_one`: the first candidate (todo task
of the mode) attaining the minimal score.  The source sorts the candidate
list with Python's stable sort on the score key and takes element 0, which
is exactly the first minimal candidate in task order. -/
def pickBookCandidate (cfg : Cfg) (mode : String) (tasks : List SimTask) :
    Option (ℕ × SimTask) :=
  match tasks with
  | [] => none
  | task :: rest =>
    let tail := (pickBookCandidate cfg mode rest).map (fun p => (p.1 + 1, p.2))
    if task.status = .todo ∧ task.mode = mode then
      match tail with
      | some (j, task') =>
        if scoreLt (scoreOf cfg mode task') (scoreOf cfg mode task) then some (j, task')
        else some (0, task)
      | none => some (0, task)
    else tail

/-- The wait-task selection of step 4 of the main loop: the first todo
`MODE_WAIT` task attaining the smallest `get_wait_minutes` at the current
hour (Python's stable sort + element 0). -/
def pickWaitReady (cfg : Cfg) (hour : ℤ) (tasks : List SimTask) :
    Option (ℕ × SimTask) :=
  match tasks with
  | [] => none
  | task :: rest =>
    let tail := (pickWaitReady cfg hour rest).map (fun p => (p.1 + 1, p.2))
    if task.status = .todo ∧ task.mode = MODE_WAIT then
      match tail with
      | some (j, task') =>
        if getWaitMinutes cfg.dfWait task'.park task'.attraction hour <
            getWaitMinutes cfg.dfWait task.park task.attraction hour then some (j, task')
        else some (0, task)
      | none => some (0, task)
    else tail

/-- Source `next_booked_return_min`: the smallest `return_min` among
booked tasks. -/
def nextBookedReturnMin (tasks : List SimTask) : Option ℤ :=
  tasks.foldr
    (fun task acc =>
      match task.status, task.returnMin with
      | .booked, some r => match acc with | some m => some (min r m) | none => some r
      | _, _ => acc)
    none

/-- Source `book_one`: pick the best todo candidate of the mode, compute
its earliest slot; on a sold-out result mark it done and return the
sellout note, otherwise mark it booked, apply the cooldown rule (60
minutes for DPA, 120 for the other constrained mode, only when the slot is
strictly in the future) and return the booking note.  The ghost `bookLog`
records each successful booking. -/
def bookOne (cfg : Cfg) (mode : String) (s : SimState) : SimState × Option String :=
  match pickBookCandidate cfg mode s.tasks with
  | none => (s, none)
  | some (idx, task) =>
    match earliestPossibleReturnMin cfg task s.t with
    | none =>
      ({ s with tasks := s.tasks.set idx { task with status := .done } },
        some (selloutNote task.attraction mode))
    | some ret =>
      let base : SimState :=
        { s with
          tasks := s.tasks.set idx { task with status := .booked, returnMin := some ret }
          bookLog := s.bookLog ++ [⟨mode, s.t, ret⟩] }
      let s' :=
        if mode == MODE_DPA then
          (if s.t < ret then { base with nextDpa := max base.nextDpa (s.t + 60) } else base)
        else
          (if s.t < ret then { base with nextPp := max base.nextPp (s.t + 120) } else base)
      (s', some (bookNote mode task.attraction ret cfg.openHour))

/-- `book_one` followed by the main loop's `if booked_note:
notes.append(booked_note)` (both possible notes are non-empty strings, so
Python's truthiness test is just `some`-ness). -/
def bookOneNote (cfg : Cfg) (mode : String) (s : SimState) : SimState :=
  match bookOne cfg mode s with
  | (s', some note) => { s' with notes := s'.notes ++ [note] }
  | (s', none) => s'

/-- Source `do_booked` on the task at `idx`: append the consume row
(duration clamped to 10 when non-positive; `pd.isna` cannot hold in the
rational model), mark the task done, give the mode's right back at the
ride end (`min`), and return with the clock advanced past the ride plus
the interval.  Callers always pass an index obtained from
`find_booked_ready`, so the out-of-range case returns the state
unchanged (a Python `IndexError` cannot occur on those calls). -/
def doBooked (cfg : Cfg) (s : SimState) (idx : ℕ) : SimState :=
  match s.tasks.get? idx with
  | none => s
  | some task =>
    let durMin : ℤ := durOf task
    let rideStart := s.t
    let rideEnd := min (rideStart + durMin) (TCLOSE cfg)
    let row : Row :=
      ⟨none, rideStart, rideEnd, task.park, task.attraction, task.mode, "DPA/PP 消化"⟩
    { s with
      tasks := s.tasks.set idx { task with status := .done, returnMin := none }
      timeline := s.timeline ++ [row]
      nextDpa := if task.mode == MODE_DPA then min s.nextDpa rideEnd else s.nextDpa
      nextPp := if task.mode == MODE_PP then min s.nextPp rideEnd else s.nextPp
      t := rideEnd + cfg.intervalMin }

/-- Source `do_wait` on the task at `idx`: queue from `now`, ride after
the scaled wait, append the row, mark the task done, advance the clock
past the ride plus the interval. -/
def doWait (cfg : Cfg) (s : SimState) (idx : ℕ) : SimState :=
  match s.tasks.get? idx with
  | none => s
  | some task =>
    let hour := hourFromMin s.t cfg.openHour
    let baseWait : ℚ := waitBaseOf cfg task hour
    let mult := factorWaitMultiplier cfg.dfFactor task.park task.attraction hour
    let waitTotal : ℤ := waitTotalOf cfg task hour
    let durMin : ℤ := durOf task
    let queueStart := s.t
    let rideStart := s.t + waitTotal
    let rideEnd := min (rideStart + durMin) (TCLOSE cfg)
    let row : Row :=
      ⟨some queueStart, rideStart, rideEnd, task.park, task.attraction, task.mode,
        waitMemo baseWait mult durMin⟩
    { s with
      tasks := s.tasks.set idx { task with status := .done }
      timeline := s.timeline ++ [row]
      t := rideEnd + cfg.intervalMin }

/-- The idle block of step 5 of the main loop: record a waiting row and
jump to the next booked return time. -/
def appendIdle (cfg : Cfg) (s : SimState) (nb : ℤ) : SimState :=
  { s with
    timeline := s.timeline ++
      [⟨none, s.t, min nb (TCLOSE cfg), "", "（待機）", "", "次の確保枠まで待機"⟩]
    t := nb }

/-- Outcome of one iteration of the main loop: continue with a new state,
or end the run (loop condition failed, or `break`). -/
inductive StepRes where
  | cont (s : SimState)
  | halt (s : SimState)
  deriving DecidableEq

/-- Step 2 of the main loop: try to book DPA, then PP, each only when the
mode's right has come back (`t >= next_..._min`, with the PP condition
reading the variable after the DPA attempt, as the source does). -/
def bookPhase (cfg : Cfg) (s : SimState) : SimState :=
  let s₁ := if s.nextDpa ≤ s.t then bookOneNote cfg MODE_DPA s else s
  if s₁.nextPp ≤ s₁.t then bookOneNote cfg MODE_PP s₁ else s₁

/-- Steps 3–5 of the main loop, run on the state after the booking
attempts: consume a booking that just became ready; else run the cheapest
wait task; else jump to the next booked return time or `break`; safety
fallback `t += 5`. -/
def stepAfterBook (cfg : Cfg) (s₂ : SimState) : StepRes :=
  match findBookedReady s₂.tasks s₂.t with
  | some (idx, _) => .cont (doBooked cfg s₂ idx)
  | none =>
    match pickWaitReady cfg (hourFromMin s₂.t cfg.openHour) s₂.tasks with
    | some (idx, _) => .cont (doWait cfg s₂ idx)
    | none =>
      match nextBookedReturnMin s₂.tasks with
      | none => .halt s₂
      | some nb =>
        if s₂.t < nb then .cont (appendIdle cfg s₂ nb)
        else .cont { s₂ with t := s₂.t + 5 }

/-- One iteration of `build_schedule`'s main `while t < T_CLOSE` loop,
with the loop condition folded in: (1) consume a ready booking; (2) try to
book DPA then PP when the rights allow; (3–5) the rest of the iteration. -/
def step (cfg : Cfg) (s : SimState) : StepRes :=
  if s.t < TCLOSE cfg then
    match findBookedReady s.tasks s.t with
    | some (idx, _) => .cont (doBooked cfg s idx)
    | none => stepAfterBook cfg (bookPhase cfg s)
  else .halt s

/-- Fuel-indexed iteration of `step`; `none` when the fuel runs out before
the loop ends.  `build_schedule` is run with enough fuel for any input
(see the termination theorem). -/
def loopO (cfg : Cfg) : ℕ → SimState → Option SimState
  | 0, _ => none
  | fuel + 1, s =>
    match step cfg s with
    | .halt s' => some s'
    | .cont s' => loopO cfg fuel s'

/-- The task built for one plan entry at the top of `build_schedule`
(duration defaulted to 10.0 when missing or NaN, as in the duplicated
dict key that wins). -/
def planToTask (p : Plan) : SimTask :=
  ⟨p.park, p.attraction, p.mode, p.duration.getD 10, .todo, none, p.waitOverride⟩

/-- The initial loop state of `build_schedule`: clock 0, both rights at 0,
nothing scheduled. -/
def initState (plans : List Plan) : SimState :=
  ⟨plans.map planToTask, 0, 0, 0, [], [], []⟩

/-- Fuel that always suffices for the main loop (window length plus two
status transitions per task, plus one). -/
def fuelFor (cfg : Cfg) (plans : List Plan) : ℕ :=
  (TCLOSE cfg).toNat + 2 * plans.length + 1

/-- Source `build_schedule`: run the main loop from the initial state.
The source returns the timeline (as a DataFrame) and the notes; the
embedding returns the whole final state, whose `timeline` and `notes`
fields are those outputs.  The fuel never runs out (see the termination
theorem); the fallback on exhaustion is the initial state. -/
def buildSchedule (cfg : Cfg) (plans : List Plan) : SimState :=
  (loopO cfg (fuelFor cfg plans) (initState plans)).getD (initState plans)

/-- The clock value at the entry of each executed loop iteration, in
order (the final `break` iteration included). -/
def iterClocks (cfg : Cfg) : ℕ → SimState → List ℤ
  | 0, _ => []
  | fuel + 1, s =>
    if s.t < TCLOSE cfg then
      s.t ::
        (match step cfg s with
         | .halt _ => []
         | .cont s' => iterClocks cfg fuel s')
    else []

/-- The bookings of a mode whose returned slot time is strictly in the
future of the booking time. -/
def futureBookings (mode : String) (log : List BookEvent) : List BookEvent :=
  log.filter (fun e => e.mode == mode && decide (e.bookedAt < e.slot))

/-- The rank of a task status for the loop measure: a task moves only
todo → booked → done. -/
def statusRank : Status → ℕ
  | .todo => 2
  | .booked => 1
  | .done => 0

/-- Sum of status ranks: the "remaining work" part of the loop measure. -/
def rankSum (tasks : List SimTask) : ℕ :=
  (tasks.map (fun task => statusRank task.status)).sum

/-- Well-formedness of the datasets and configuration: non-negative
interval, non-negative wait cells and non-negative wait multipliers (the
amounts the spec's wait-model contract requires to be non-negative
minutes). -/
def GoodCfg (cfg : Cfg) : Prop :=
  0 ≤ cfg.intervalMin ∧
  (∀ row ∈ cfg.dfWait, ∀ hc ∈ row.hours, ∀ v, hc.2 = some v → 0 ≤ v) ∧
  (∀ row ∈ cfg.dfFactor,
    (∀ v, row.waitMultMorning = some v → 0 ≤ v) ∧
    (∀ v, row.waitMultNoon = some v → 0 ≤ v) ∧
    (∀ v, row.waitMultEvening = some v → 0 ≤ v))

instance (cfg : Cfg) : Decidable (GoodCfg cfg) := by unfold GoodCfg; infer_instance

/-- Well-formedness of the plans: non-negative wait overrides. -/
def GoodPlans (plans : List Plan) : Prop :=
  ∀ p ∈ plans, ∀ v, p.waitOverride = some v → 0 ≤ v

instance (plans : List Plan) : Decidable (GoodPlans plans) := by
  unfold GoodPlans; infer_instance

/-- A successful slot computation always returns the current time itself:
the `while` loop of `earliest_possible_return_min` can only return in its
first iteration. -/
theorem earliestPossibleReturnMin_eq_now (cfg : Cfg) (task : SimTask) (nowMin r : ℤ)
    (h : earliestPossibleReturnMin cfg task nowMin = some r) : r = nowMin := by
  unfold earliestPossibleReturnMin at h
  cases he : effSelloutHour cfg task.park task.attraction task.mode <;>
    rw [he] at h <;> dsimp only at h <;> split_ifs at h <;> simp_all

/-- C8: for a positive limit, `evaluate` classifies by the ratio
score/limit against the fixed thresholds 0.75, 1.00, 1.25, returning the
four labels with their messages and echoing the limit back. -/
theorem evaluate_threshold_classification (total limit : ℚ) (h : 0 < limit) :
    (evaluate total limit).limit = limit ∧
    (total / limit ≤ 3/4 →
      (evaluate total limit).label = evalLabel1 ∧
      (evaluate total limit).message = evalMsg1) ∧
    (3/4 < total / limit ∧ total / limit ≤ 1 →
      (evaluate total limit).label = evalLabel2 ∧
      (evaluate total limit).message = evalMsg2) ∧
    (1 < total / limit ∧ total / limit ≤ 5/4 →
      (evaluate total limit).label = evalLabel3 ∧
      (evaluate total limit).message = evalMsg3) ∧
    (5/4 < total / limit →
      (evaluate total limit).label = evalLabel4 ∧
      (evaluate total limit).message = evalMsg4) := by
  unfold evaluate
  simp only [if_pos h]
  split_ifs with h1 h2 h3 <;>
    refine ⟨rfl, ?_, ?_, ?_, ?_⟩ <;> intro hx <;>
    first
      | exact ⟨rfl, rfl⟩
      | (exfalso; first | linarith [hx.1, hx.2] | linarith)

/-- C8 witness: total 10, limit 10, ratio 1 falls in the second band. -/
theorem evaluate_threshold_classification_witness :
    (0 : ℚ) < 10 ∧
    ((evaluate 10 10).limit = 10 ∧
      ((10 : ℚ) / 10 ≤ 3/4 →
        (evaluate 10 10).label = evalLabel1 ∧ (evaluate 10 10).message = evalMsg1) ∧
      (3/4 < (10 : ℚ) / 10 ∧ (10 : ℚ) / 10 ≤ 1 →
        (evaluate 10 10).label = evalLabel2 ∧ (evaluate 10 10).message = evalMsg2) ∧
      (1 < (10 : ℚ) / 10 ∧ (10 : ℚ) / 10 ≤ 5/4 →
        (evaluate 10 10).label = evalLabel3 ∧ (evaluate 10 10).message = evalMsg3) ∧
      (5/4 < (10 : ℚ) / 10 →
        (evaluate 10 10).label = evalLabel4 ∧ (evaluate 10 10).message = evalMsg4)) :=
  ⟨by norm_num, evaluate_threshold_classification 10 10 (by norm_num)⟩

/-- C10: a non-positive limit never divides; the ratio is forced to 999
and the worst label is returned regardless of the total. -/
theorem evaluate_nonpositive_limit (total limit : ℚ) (h : limit ≤ 0) :
    (evaluate total limit).ratio = 999 ∧
    (evaluate total limit).label = evalLabel4 := by
  have h0 : ¬ (0 : ℚ) < limit := not_lt.mpr h
  unfold evaluate
  simp only [if_neg h0]
  norm_num

/-- C10 witness: total 0, limit 0. -/
theorem evaluate_nonpositive_limit_witness :
    (0 : ℚ) ≤ 0 ∧
    ((evaluate 0 0).ratio = 999 ∧ (evaluate 0 0).label = evalLabel4) :=
  ⟨le_refl 0, evaluate_nonpositive_limit 0 0 (le_refl 0)⟩

/-- A wait dataset with a negative cell: the lookup returns the cell
verbatim. -/
def negWaitDf : List WaitRow := [⟨"P", "A", [(10, some (-5))]⟩]

/-- C9 counterexample: on a wait dataset holding the cell −5 for hour 10,
`get_wait_minutes` returns −5, a negative number, so the lookup is not
non-negative for every dataset. -/
theorem getWaitMinutes_negative_counterexample :
    ¬ (0 ≤ getWaitMinutes negWaitDf "P" "A" 10) := by decide

/-- The wait lookup is non-negative whenever every cell of the dataset is
non-negative (all fallback paths return 30). -/
theorem getWaitMinutes_nonneg (df : List WaitRow) (park attr : String) (hour : ℤ)
    (h : ∀ row ∈ df, ∀ hc ∈ row.hours, ∀ v, hc.2 = some v → 0 ≤ v) :
    0 ≤ getWaitMinutes df park attr hour := by
  unfold getWaitMinutes
  cases hemp : df.isEmpty
  · cases hf : df.find? (fun r => r.parkNorm == park && r.attrNorm == attr) with
    | none => simp [hemp, hf]
    | some r =>
      have hr : r ∈ df := List.mem_of_find?_eq_some hf
      cases hc : r.hours.find? (fun hc => hc.1 == hour) with
      | none => simp [hemp, hf, hc]
      | some hcell =>
        have hcm : hcell ∈ r.hours := List.mem_of_find?_eq_some hc
        obtain ⟨h1, h2⟩ := hcell
        cases h2 with
        | none => simp [hemp, hf, hc]
        | some v =>
          have hv : 0 ≤ v := h r hr (h1, some v) hcm v rfl
          simp [hemp, hf, hc, hv]
  · simp [hemp]

/-- C9 (amended): the lookup is total and never fails; an empty dataset, a
key miss, a missing hour column or a NaN cell yield the fixed default
30.0; and the result is non-negative whenever every cell of the dataset is
non-negative. -/
theorem getWaitMinutes_total_default (df : List WaitRow) (park attr : String) (hour : ℤ)
    (h : ∀ row ∈ df, ∀ hc ∈ row.hours, ∀ v, hc.2 = some v → 0 ≤ v) :
    0 ≤ getWaitMinutes df park attr hour ∧
    getWaitMinutes [] park attr hour = 30 ∧
    (df.find? (fun r => r.parkNorm == park && r.attrNorm == attr) = none →
      getWaitMinutes df park attr hour = 30) := by
  refine ⟨getWaitMinutes_nonneg df park attr hour h, by simp [getWaitMinutes], ?_⟩
  · intro hf
    unfold getWaitMinutes
    cases hemp : df.isEmpty
    · simp [hemp, hf]
    · simp [hemp]

/-- C9 witness: a dataset with the single non-negative cell 12. -/
theorem getWaitMinutes_total_default_witness :
    (∀ row ∈ [WaitRow.mk "P" "A" [(10, some 12)]], ∀ hc ∈ row.hours, ∀ v,
      hc.2 = some v → 0 ≤ v) ∧
    (0 ≤ getWaitMinutes [WaitRow.mk "P" "A" [(10, some 12)]] "P" "A" 10 ∧
      getWaitMinutes [] "P" "A" 10 = 30 ∧
      (([WaitRow.mk "P" "A" [(10, some 12)]].find?
          (fun r => r.parkNorm == "P" && r.attrNorm == "A")) = none →
        getWaitMinutes [WaitRow.mk "P" "A" [(10, some 12)]] "P" "A" 10 = 30)) :=
  ⟨by decide, getWaitMinutes_total_default _ "P" "A" 10 (by decide)⟩

/-- C6: `build_schedule` is a pure function of its arguments; two runs on
identical inputs produce identical timelines and identical notes. -/
theorem buildSchedule_deterministic (cfg₁ cfg₂ : Cfg) (plans₁ plans₂ : List Plan)
    (hc : cfg₁ = cfg₂) (hp : plans₁ = plans₂) :
    (buildSchedule cfg₁ plans₁).timeline = (buildSchedule cfg₂ plans₂).timeline ∧
    (buildSchedule cfg₁ plans₁).notes = (buildSchedule cfg₂ plans₂).notes := by
  subst hc; subst hp; exact ⟨rfl, rfl⟩

/-- C6 witness: a concrete one-plan input, run twice. -/
theorem buildSchedule_deterministic_witness :
    (Cfg.mk [] [] [] 2 10 9 21 = Cfg.mk [] [] [] 2 10 9 21) ∧
    ([Plan.mk "TDS" "A" MODE_WAIT (some 5) none] =
      [Plan.mk "TDS" "A" MODE_WAIT (some 5) none]) ∧
    ((buildSchedule (Cfg.mk [] [] [] 2 10 9 21) [Plan.mk "TDS" "A" MODE_WAIT (some 5) none]).timeline =
      (buildSchedule (Cfg.mk [] [] [] 2 10 9 21) [Plan.mk "TDS" "A" MODE_WAIT (some 5) none]).timeline ∧
      (buildSchedule (Cfg.mk [] [] [] 2 10 9 21) [Plan.mk "TDS" "A" MODE_WAIT (some 5) none]).notes =
      (buildSchedule (Cfg.mk [] [] [] 2 10 9 21) [Plan.mk "TDS" "A" MODE_WAIT (some 5) none]).notes) :=
  ⟨rfl, rfl, buildSchedule_deterministic _ _ _ _ rfl rfl⟩

/-- C3: with a sellout entry present and the current hour bucket within
the operating window, the slot computation returns the current time itself
while the bucket is at or before the last bookable hour, and `none`
exactly once the bucket exceeds it. -/
theorem slot_now_or_sold_out (cfg : Cfg) (task : SimTask) (nowMin lb : ℤ)
    (hlb : lastBookableHour cfg task.park task.attraction task.mode = some lb)
    (hh : hourFromMin nowMin cfg.openHour ≤ cfg.closeHour) :
    (hourFromMin nowMin cfg.openHour ≤ lb →
      earliestPossibleReturnMin cfg task nowMin = some nowMin) ∧
    (lb < hourFromMin nowMin cfg.openHour →
      earliestPossibleReturnMin cfg task nowMin = none) := by
  obtain ⟨e, he, hlb'⟩ :
      ∃ e, effSelloutHour cfg task.park task.attraction task.mode = some e ∧ e - 1 = lb := by
    unfold lastBookableHour at hlb
    cases h : effSelloutHour cfg task.park task.attraction task.mode with
    | none => rw [h] at hlb; simp at hlb
    | some e => exact ⟨e, rfl, by rw [h] at hlb; simpa using hlb⟩
  unfold earliestPossibleReturnMin
  rw [he]
  constructor
  · intro hle
    have hne : ¬ e ≤ hourFromMin nowMin cfg.openHour := by omega
    simp [hne, hh]
  · intro hlt
    have hle : e ≤ hourFromMin nowMin cfg.openHour := by omega
    simp [hle]

/-- The sellout dataset used by the C3 witness: DPA sells out at hour 13. -/
def c3Cfg : Cfg := ⟨[], [⟨"P", "A", some 13, none⟩], [], 3, 10, 9, 21⟩

/-- The task used by the C3 witness. -/
def c3Task : SimTask := planToTask ⟨"P", "A", MODE_DPA, some 5, none⟩

/-- C3 witness: at opening (clock 0, hour 9) with last bookable hour 12,
the slot computation returns the clock itself. -/
theorem slot_now_or_sold_out_witness :
    lastBookableHour c3Cfg c3Task.park c3Task.attraction c3Task.mode = some 12 ∧
    hourFromMin 0 c3Cfg.openHour ≤ c3Cfg.closeHour ∧
    ((hourFromMin 0 c3Cfg.openHour ≤ 12 →
      earliestPossibleReturnMin c3Cfg c3Task 0 = some 0) ∧
    (12 < hourFromMin 0 c3Cfg.openHour →
      earliestPossibleReturnMin c3Cfg c3Task 0 = none)) :=
  ⟨by decide, by decide, slot_now_or_sold_out c3Cfg c3Task 0 12 (by decide) (by decide)⟩

/-- The configuration of the C2 counterexample: crowd ★ (speed 0.8), no
factor data, one PP sellout entry at hour 8 — one hour before the 9:00
open. -/
def soldOutCxCfg : Cfg := ⟨[], [⟨"TDS", "A", none, some 8⟩], [], 1, 0, 9, 21⟩

/-- The plans of the C2 counterexample: a single PP selection for the
activity whose sellout entry is 8. -/
def soldOutCxPlans : List Plan := [⟨"TDS", "A", MODE_PP, some 5, none⟩]

/-- C2 counterexample: the activity's PP sellout-hour entry is 8, strictly
before the open hour 9, yet the run books and consumes it (the crowd-speed
division turns the effective sellout hour into round(8/0.8) = 10): the
timeline holds its consume row and the notes hold only the booking-success
note, not the sold-out note.  So sold-out-before-open is not a
deterministic reject. -/
theorem sold_out_before_open_counterexample :
    getSelloutHour soldOutCxCfg.dfSellout "TDS" "A" MODE_PP = some 8 ∧
    (8 : ℤ) < soldOutCxCfg.openHour ∧
    ¬ (((buildSchedule soldOutCxCfg soldOutCxPlans).timeline.all
          (fun r => !(r.attraction == "A" && r.mode == MODE_PP))) = true ∧
        selloutNote "A" MODE_PP ∈ (buildSchedule soldOutCxCfg soldOutCxPlans).notes) := by
  refine ⟨by decide, by decide, ?_⟩
  intro hcl
  have : ((buildSchedule soldOutCxCfg soldOutCxPlans).timeline.all
      (fun r => !(r.attraction == "A" && r.mode == MODE_PP))) = false := by decide
  rw [hcl.1] at this
  exact absurd this (by simp)

/-- The configuration of the C4 counterexample: empty datasets, interval
0 minutes. -/
def zeroStepCxCfg : Cfg := ⟨[], [], [], 3, 0, 9, 21⟩

/-- The plans of the C4 counterexample: two queue selections with duration
0.4 minutes (rounds to 0) and a wait override of 0 minutes. -/
def zeroStepCxPlans : List Plan :=
  [⟨"TDS", "A", MODE_WAIT, some (2/5), some 0⟩,
   ⟨"TDS", "B", MODE_WAIT, some (2/5), some 0⟩]

/-- C4 counterexample: on these inputs the iteration-entry clocks are
[0, 0, 0] — the first and second iterations leave the simulated clock
unchanged without ending the run (a zero wait, a duration that rounds to
0 minutes and a zero interval produce an action of zero length), so it is
not the case that every iteration strictly increases the clock or ends
the run. -/
theorem clock_unchanged_iteration_counterexample :
    iterClocks zeroStepCxCfg (fuelFor zeroStepCxCfg zeroStepCxPlans)
      (initState zeroStepCxPlans) = [0, 0, 0] ∧
    ¬ List.Chain' (fun a b : ℤ => a < b)
      (iterClocks zeroStepCxCfg (fuelFor zeroStepCxCfg zeroStepCxPlans)
        (initState zeroStepCxPlans)) := by
  have htr : iterClocks zeroStepCxCfg (fuelFor zeroStepCxCfg zeroStepCxPlans)
      (initState zeroStepCxPlans) = [0, 0, 0] := by decide
  refine ⟨htr, ?_⟩
  rw [htr]
  intro hch
  have := List.Chain'.rel_head hch
  omega

/-- The state carried by either outcome of a loop iteration. -/
def resState : StepRes → SimState
  | .cont s => s
  | .halt s => s

/-- Case-analysis principle for one loop iteration: every outcome of
`step` is one of the seven branches of the source loop, with the guards
that lead there. -/
theorem step_cases (cfg : Cfg) (s : SimState) {motive : StepRes → Prop}
    (hout : ¬ s.t < TCLOSE cfg → motive (.halt s))
    (hready : ∀ idx ret, s.t < TCLOSE cfg →
      findBookedReady s.tasks s.t = some (idx, ret) →
      motive (.cont (doBooked cfg s idx)))
    (hready2 : ∀ idx ret, s.t < TCLOSE cfg →
      findBookedReady s.tasks s.t = none →
      findBookedReady (bookPhase cfg s).tasks (bookPhase cfg s).t = some (idx, ret) →
      motive (.cont (doBooked cfg (bookPhase cfg s) idx)))
    (hwait : ∀ idx task, s.t < TCLOSE cfg →
      findBookedReady s.tasks s.t = none →
      findBookedReady (bookPhase cfg s).tasks (bookPhase cfg s).t = none →
      pickWaitReady cfg (hourFromMin (bookPhase cfg s).t cfg.openHour)
        (bookPhase cfg s).tasks = some (idx, task) →
      motive (.cont (doWait cfg (bookPhase cfg s) idx)))
    (hbreak : s.t < TCLOSE cfg →
      findBookedReady s.tasks s.t = none →
      findBookedReady (bookPhase cfg s).tasks (bookPhase cfg s).t = none →
      pickWaitReady cfg (hourFromMin (bookPhase cfg s).t cfg.openHour)
        (bookPhase cfg s).tasks = none →
      nextBookedReturnMin (bookPhase cfg s).tasks = none →
      motive (.halt (bookPhase cfg s)))
    (hidle : ∀ nb, s.t < TCLOSE cfg →
      findBookedReady s.tasks s.t = none →
      findBookedReady (bookPhase cfg s).tasks (bookPhase cfg s).t = none →
      pickWaitReady cfg (hourFromMin (bookPhase cfg s).t cfg.openHour)
        (bookPhase cfg s).tasks = none →
      nextBookedReturnMin (bookPhase cfg s).tasks = some nb →
      (bookPhase cfg s).t < nb →
      motive (.cont (appendIdle cfg (bookPhase cfg s) nb)))
    (hsafe : ∀ nb, s.t < TCLOSE cfg →
      findBookedReady s.tasks s.t = none →
      findBookedReady (bookPhase cfg s).tasks (bookPhase cfg s).t = none →
      pickWaitReady cfg (hourFromMin (bookPhase cfg s).t cfg.openHour)
        (bookPhase cfg s).tasks = none →
      nextBookedReturnMin (bookPhase cfg s).tasks = some nb →
      ¬ (bookPhase cfg s).t < nb →
      motive (.cont { bookPhase cfg s with t := (bookPhase cfg s).t + 5 })) :
    motive (step cfg s) := by
  unfold step
  split
  case isTrue ht =>
    cases hfb : findBookedReady s.tasks s.t with
    | some p =>
      obtain ⟨idx, ret⟩ := p
      exact hready idx ret ht hfb
    | none =>
      unfold stepAfterBook
      cases hfb2 : findBookedReady (bookPhase cfg s).tasks (bookPhase cfg s).t with
      | some p =>
        obtain ⟨idx, ret⟩ := p
        exact hready2 idx ret ht hfb hfb2
      | none =>
        cases hpw : pickWaitReady cfg (hourFromMin (bookPhase cfg s).t cfg.openHour)
            (bookPhase cfg s).tasks with
        | some p =>
          obtain ⟨idx, task⟩ := p
          exact hwait idx task ht hfb hfb2 hpw
        | none =>
          cases hnb : nextBookedReturnMin (bookPhase cfg s).tasks with
          | none => exact hbreak ht hfb hfb2 hpw hnb
          | some nb =>
            dsimp only
            by_cases hlt : (bookPhase cfg s).t < nb
            · rw [if_pos hlt]
              exact hidle nb ht hfb hfb2 hpw hnb hlt
            · rw [if_neg hlt]
              exact hsafe nb ht hfb hfb2 hpw hnb hlt
  case isFalse ht => exact hout ht

/-- Rounding preserves non-negativity. -/
theorem pyRound_nonneg (q : ℚ) (h : 0 ≤ q) : 0 ≤ pyRound q := by
  have hf : (0 : ℤ) ≤ ⌊q⌋ := Int.floor_nonneg.mpr h
  unfold pyRound
  dsimp only
  split_ifs <;> omega

/-- The clamped, rounded duration is never negative. -/
theorem durOf_nonneg (task : SimTask) : 0 ≤ durOf task := by
  unfold durOf
  apply pyRound_nonneg
  split_ifs with h
  · norm_num
  · exact le_of_lt (lt_of_not_ge h)

/-- A choice of `find_booked_ready` is a booked task whose return time has
arrived. -/
theorem findBookedReady_valid (tasks : List SimTask) (nowMin : ℤ) (idx : ℕ) (ret : ℤ)
    (h : findBookedReady tasks nowMin = some (idx, ret)) :
    ∃ task, tasks.get? idx = some task ∧ task.status = .booked ∧
      task.returnMin = some ret ∧ ret ≤ nowMin := by
  induction tasks generalizing idx ret with
  | nil => simp [findBookedReady] at h
  | cons head rest ih =>
    unfold findBookedReady at h
    cases hs : head.status <;> rw [hs] at h
    case booked =>
      cases hr : head.returnMin <;> rw [hr] at h
      case some r =>
        dsimp only at h
        by_cases hok : r ≤ nowMin ∧ r < 10^9
        · rw [if_pos hok] at h
          cases ht : findBookedReady rest nowMin with
          | none =>
            rw [ht] at h
            simp only [Option.map_none', Option.some.injEq, Prod.mk.injEq] at h
            obtain ⟨h1, h2⟩ := h
            exact ⟨head, by simp [← h1], hs, by rw [hr, h2], by omega⟩
          | some p =>
            obtain ⟨j, r'⟩ := p
            rw [ht] at h
            simp only [Option.map_some'] at h
            split_ifs at h with hlt
            · simp only [Option.some.injEq, Prod.mk.injEq] at h
              obtain ⟨h1, h2⟩ := h
              obtain ⟨task, hget, h3, h4, h5⟩ := ih j r' ht
              subst h2
              exact ⟨task, by rw [← h1]; simpa using hget, h3, h4, h5⟩
            · simp only [Option.some.injEq, Prod.mk.injEq] at h
              obtain ⟨h1, h2⟩ := h
              exact ⟨head, by simp [← h1], hs, by rw [hr, h2], by omega⟩
        · rw [if_neg hok] at h
          cases ht : findBookedReady rest nowMin with
          | none => rw [ht] at h; simp at h
          | some p =>
            obtain ⟨j, r'⟩ := p
            rw [ht] at h
            simp only [Option.map_some', Option.some.injEq, Prod.mk.injEq] at h
            obtain ⟨h1, h2⟩ := h
            obtain ⟨task, hget, h3, h4, h5⟩ := ih j r' ht
            subst h2
            exact ⟨task, by rw [← h1]; simpa using hget, h3, h4, h5⟩
      case none =>
        dsimp only at h
        cases ht : findBookedReady rest nowMin with
        | none => rw [ht] at h; simp at h
        | some p =>
          obtain ⟨j, r'⟩ := p
          rw [ht] at h
          simp only [Option.map_some', Option.some.injEq, Prod.mk.injEq] at h
          obtain ⟨h1, h2⟩ := h
          obtain ⟨task, hget, h3, h4, h5⟩ := ih j r' ht
          subst h2
          exact ⟨task, by rw [← h1]; simpa using hget, h3, h4, h5⟩
    all_goals
      dsimp only at h
      cases ht : findBookedReady rest nowMin with
      | none => rw [ht] at h; simp at h
      | some p =>
        obtain ⟨j, r'⟩ := p
        rw [ht] at h
        simp only [Option.map_some', Option.some.injEq, Prod.mk.injEq] at h
        obtain ⟨h1, h2⟩ := h
        obtain ⟨task, hget, h3, h4, h5⟩ := ih j r' ht
        subst h2
        exact ⟨task, by rw [← h1]; simpa using hget, h3, h4, h5⟩

/-- A choice of `book_one`'s candidate selection is a todo task of the
requested mode. -/
theorem pickBookCandidate_valid (cfg : Cfg) (mode : String) (tasks : List SimTask)
    (idx : ℕ) (task : SimTask)
    (h : pickBookCandidate cfg mode tasks = some (idx, task)) :
    tasks.get? idx = some task ∧ task.status = .todo ∧ task.mode = mode := by
  induction tasks generalizing idx task with
  | nil => simp [pickBookCandidate] at h
  | cons head rest ih =>
    unfold pickBookCandidate at h
    by_cases hc : head.status = Status.todo ∧ head.mode = mode
    · rw [if_pos hc] at h
      cases ht : pickBookCandidate cfg mode rest with
      | none =>
        rw [ht] at h
        simp only [Option.map_none', Option.some.injEq, Prod.mk.injEq] at h
        obtain ⟨h1, h2⟩ := h
        subst h2
        exact ⟨by simp [← h1], hc.1, hc.2⟩
      | some p =>
        obtain ⟨j, t'⟩ := p
        rw [ht] at h
        simp only [Option.map_some'] at h
        split_ifs at h with hlt
        · simp only [Option.some.injEq, Prod.mk.injEq] at h
          obtain ⟨h1, h2⟩ := h
          obtain ⟨hget, h3, h4⟩ := ih j t' ht
          subst h2
          exact ⟨by rw [← h1]; simpa using hget, h3, h4⟩
        · simp only [Option.some.injEq, Prod.mk.injEq] at h
          obtain ⟨h1, h2⟩ := h
          subst h2
          exact ⟨by simp [← h1], hc.1, hc.2⟩
    · rw [if_neg hc] at h
      cases ht : pickBookCandidate cfg mode rest with
      | none => rw [ht] at h; simp at h
      | some p =>
        obtain ⟨j, t'⟩ := p
        rw [ht] at h
        simp only [Option.map_some', Option.some.injEq, Prod.mk.injEq] at h
        obtain ⟨h1, h2⟩ := h
        obtain ⟨hget, h3, h4⟩ := ih j t' ht
        subst h2
        exact ⟨by rw [← h1]; simpa using hget, h3, h4⟩

/-- A choice of the wait-task selection is a todo queue-mode task. -/
theorem pickWaitReady_valid (cfg : Cfg) (hour : ℤ) (tasks : List SimTask)
    (idx : ℕ) (task : SimTask)
    (h : pickWaitReady cfg hour tasks = some (idx, task)) :
    tasks.get? idx = some task ∧ task.status = .todo ∧ task.mode = MODE_WAIT := by
  induction tasks generalizing idx task with
  | nil => simp [pickWaitReady] at h
  | cons head rest ih =>
    unfold pickWaitReady at h
    by_cases hc : head.status = Status.todo ∧ head.mode = MODE_WAIT
    · rw [if_pos hc] at h
      cases ht : pickWaitReady cfg hour rest with
      | none =>
        rw [ht] at h
        simp only [Option.map_none', Option.some.injEq, Prod.mk.injEq] at h
        obtain ⟨h1, h2⟩ := h
        subst h2
        exact ⟨by simp [← h1], hc.1, hc.2⟩
      | some p =>
        obtain ⟨j, t'⟩ := p
        rw [ht] at h
        simp only [Option.map_some'] at h
        split_ifs at h with hlt
        · simp only [Option.some.injEq, Prod.mk.injEq] at h
          obtain ⟨h1, h2⟩ := h
          obtain ⟨hget, h3, h4⟩ := ih j t' ht
          subst h2
          exact ⟨by rw [← h1]; simpa using hget, h3, h4⟩
        · simp only [Option.some.injEq, Prod.mk.injEq] at h
          obtain ⟨h1, h2⟩ := h
          subst h2
          exact ⟨by simp [← h1], hc.1, hc.2⟩
    · rw [if_neg hc] at h
      cases ht : pickWaitReady cfg hour rest with
      | none => rw [ht] at h; simp at h
      | some p =>
        obtain ⟨j, t'⟩ := p
        rw [ht] at h
        simp only [Option.map_some', Option.some.injEq, Prod.mk.injEq] at h
        obtain ⟨h1, h2⟩ := h
        obtain ⟨hget, h3, h4⟩ := ih j t' ht
        subst h2
        exact ⟨by rw [← h1]; simpa using hget, h3, h4⟩

/-- `book_one` never moves the clock, the timeline, the notes or either
reservation right: a successful booking's slot is always "now"
(`earliestPossibleReturnMin_eq_now`), so the cooldown branch
(`ret > now`) is never taken. -/
theorem bookOne_unchanged (cfg : Cfg) (mode : String) (s : SimState) :
    (bookOne cfg mode s).1.t = s.t ∧
    (bookOne cfg mode s).1.nextDpa = s.nextDpa ∧
    (bookOne cfg mode s).1.nextPp = s.nextPp ∧
    (bookOne cfg mode s).1.timeline = s.timeline ∧
    (bookOne cfg mode s).1.notes = s.notes := by
  unfold bookOne
  cases hp : pickBookCandidate cfg mode s.tasks with
  | none => exact ⟨rfl, rfl, rfl, rfl, rfl⟩
  | some p =>
    obtain ⟨idx, task⟩ := p
    dsimp only
    cases he : earliestPossibleReturnMin cfg task s.t with
    | none => exact ⟨rfl, rfl, rfl, rfl, rfl⟩
    | some ret =>
      have hr := earliestPossibleReturnMin_eq_now cfg task s.t ret he
      subst hr
      dsimp only
      split_ifs <;> first | (exfalso; omega) | exact ⟨rfl, rfl, rfl, rfl, rfl⟩

/-- The ghost log of `book_one`: unchanged, or extended by one event whose
slot time equals the booking time. -/
theorem bookOne_bookLog (cfg : Cfg) (mode : String) (s : SimState) :
    (bookOne cfg mode s).1.bookLog = s.bookLog ∨
    (bookOne cfg mode s).1.bookLog = s.bookLog ++ [⟨mode, s.t, s.t⟩] := by
  unfold bookOne
  cases hp : pickBookCandidate cfg mode s.tasks with
  | none => exact Or.inl rfl
  | some p =>
    obtain ⟨idx, task⟩ := p
    dsimp only
    cases he : earliestPossibleReturnMin cfg task s.t with
    | none => exact Or.inl rfl
    | some ret =>
      have hr := earliestPossibleReturnMin_eq_now cfg task s.t ret he
      subst hr
      right
      dsimp only
      split_ifs <;> rfl

/-- The task list of `book_one`: unchanged, or one todo task of the mode
marked done (with the sellout note returned and its slot computation
empty), or one todo task of the mode booked for "now" (its slot
computation returning the current time). -/
theorem bookOne_tasks (cfg : Cfg) (mode : String) (s : SimState) :
    (bookOne cfg mode s).1.tasks = s.tasks ∨
    ∃ idx task, s.tasks.get? idx = some task ∧ task.status = .todo ∧ task.mode = mode ∧
      ((earliestPossibleReturnMin cfg task s.t = none ∧
          (bookOne cfg mode s).2 = some (selloutNote task.attraction mode) ∧
          (bookOne cfg mode s).1.tasks = s.tasks.set idx { task with status := .done }) ∨
       (earliestPossibleReturnMin cfg task s.t = some s.t ∧
          (bookOne cfg mode s).1.tasks =
            s.tasks.set idx { task with status := .booked, returnMin := some s.t })) := by
  unfold bookOne
  cases hp : pickBookCandidate cfg mode s.tasks with
  | none => exact Or.inl rfl
  | some p =>
    obtain ⟨idx, task⟩ := p
    obtain ⟨hget, hst, hm⟩ := pickBookCandidate_valid cfg mode s.tasks idx task hp
    dsimp only
    cases he : earliestPossibleReturnMin cfg task s.t with
    | none => exact Or.inr ⟨idx, task, hget, hst, hm, Or.inl ⟨he, rfl, rfl⟩⟩
    | some ret =>
      have hr := earliestPossibleReturnMin_eq_now cfg task s.t ret he
      subst hr
      refine Or.inr ⟨idx, task, hget, hst, hm, Or.inr ⟨he, ?_⟩⟩
      dsimp only
      split_ifs <;> rfl

/-- State facts for `book_one` followed by the note append: clock, rights
and timeline unchanged; notes extended; log extended by at most one
immediate event; tasks unchanged or one todo task of the mode marked done
(with its sellout note now present in the notes) or booked for "now". -/
theorem bookOneNote_state (cfg : Cfg) (mode : String) (s : SimState) :
    (bookOneNote cfg mode s).t = s.t ∧
    (bookOneNote cfg mode s).nextDpa = s.nextDpa ∧
    (bookOneNote cfg mode s).nextPp = s.nextPp ∧
    (bookOneNote cfg mode s).timeline = s.timeline ∧
    (∃ l, (bookOneNote cfg mode s).notes = s.notes ++ l) ∧
    ((bookOneNote cfg mode s).bookLog = s.bookLog ∨
      (bookOneNote cfg mode s).bookLog = s.bookLog ++ [⟨mode, s.t, s.t⟩]) ∧
    ((bookOneNote cfg mode s).tasks = s.tasks ∨
      ∃ idx task, s.tasks.get? idx = some task ∧ task.status = .todo ∧ task.mode = mode ∧
        ((earliestPossibleReturnMin cfg task s.t = none ∧
            selloutNote task.attraction mode ∈ (bookOneNote cfg mode s).notes ∧
            (bookOneNote cfg mode s).tasks = s.tasks.set idx { task with status := .done }) ∨
         (earliestPossibleReturnMin cfg task s.t = some s.t ∧
            (bookOneNote cfg mode s).tasks =
              s.tasks.set idx { task with status := .booked, returnMin := some s.t }))) := by
  have hu := bookOne_unchanged cfg mode s
  have hl := bookOne_bookLog cfg mode s
  have ht := bookOne_tasks cfg mode s
  unfold bookOneNote
  cases hb : bookOne cfg mode s with
  | mk s' note? =>
    rw [hb] at hu hl ht
    obtain ⟨hu1, hu2, hu3, hu4, hu5⟩ := hu
    dsimp only at hu1 hu2 hu3 hu4 hu5 hl ht
    cases note? with
    | none =>
      dsimp only
      refine ⟨hu1, hu2, hu3, hu4, ⟨[], by simp [hu5]⟩, hl, ?_⟩
      rcases ht with ht | ⟨idx, task, hget, hst, hm, ⟨hepr, hnote, htask⟩ | ⟨hepr, htask⟩⟩
      · exact Or.inl ht
      · simp at hnote
      · exact Or.inr ⟨idx, task, hget, hst, hm, Or.inr ⟨hepr, htask⟩⟩
    | some note =>
      dsimp only
      refine ⟨hu1, hu2, hu3, hu4, ⟨[note], by rw [hu5]⟩, hl, ?_⟩
      rcases ht with ht | ⟨idx, task, hget, hst, hm, ⟨hepr, hnote, htask⟩ | ⟨hepr, htask⟩⟩
      · exact Or.inl ht
      · refine Or.inr ⟨idx, task, hget, hst, hm, Or.inl ⟨hepr, ?_, htask⟩⟩
        simp only [Option.some.injEq] at hnote
        rw [hu5, ← hnote]
        simp
      · exact Or.inr ⟨idx, task, hget, hst, hm, Or.inr ⟨hepr, htask⟩⟩

/-- The shape of the task-list change made by one `book_one` call at clock
`tnow` whose notes end up inside `notes'`: nothing, or one todo task of
the mode marked done with its sellout note recorded, or one todo task of
the mode booked for "now". -/
def BookedLikeTrans (cfg : Cfg) (tnow : ℤ) (notes' : List String)
    (l l' : List SimTask) (mode : String) : Prop :=
  l' = l ∨
  ∃ idx task, l.get? idx = some task ∧ task.status = .todo ∧ task.mode = mode ∧
    ((earliestPossibleReturnMin cfg task tnow = none ∧
        selloutNote task.attraction mode ∈ notes' ∧
        l' = l.set idx { task with status := .done }) ∨
     (earliestPossibleReturnMin cfg task tnow = some tnow ∧
        l' = l.set idx { task with status := .booked, returnMin := some tnow }))

/-- The booking transition tolerates growing the notes list. -/
theorem BookedLikeTrans.mono_notes {cfg : Cfg} {tnow : ℤ} {notes₁ notes₂ : List String}
    {l l' : List SimTask} {mode : String}
    (h : BookedLikeTrans cfg tnow notes₁ l l' mode)
    (hsub : ∀ x ∈ notes₁, x ∈ notes₂) :
    BookedLikeTrans cfg tnow notes₂ l l' mode := by
  rcases h with h | ⟨idx, task, hget, hst, hm, ⟨he, hn, hl⟩ | hb⟩
  · exact Or.inl h
  · exact Or.inr ⟨idx, task, hget, hst, hm, Or.inl ⟨he, hsub _ hn, hl⟩⟩
  · exact Or.inr ⟨idx, task, hget, hst, hm, Or.inr hb⟩

/-- Replacing one element changes the rank sum by the rank difference. -/
theorem rankSum_set (l : List SimTask) (i : ℕ) (a b : SimTask)
    (h : l.get? i = some a) :
    rankSum (l.set i b) + statusRank a.status = rankSum l + statusRank b.status := by
  induction l generalizing i with
  | nil => simp at h
  | cons head rest ih =>
    cases i with
    | zero =>
      simp only [List.get?_cons_zero, Option.some.injEq] at h
      subst h
      simp [rankSum, List.set_cons_zero]
      omega
    | succ n =>
      simp only [List.get?_cons_succ] at h
      have := ih n h
      simp only [List.set_cons_succ, rankSum, List.map_cons, List.sum_cons] at this ⊢
      omega

/-- A booking transition never increases the rank sum, and any change
strictly decreases it. -/
theorem BookedLikeTrans.rank {cfg : Cfg} {tnow : ℤ} {notes' : List String}
    {l l' : List SimTask} {mode : String}
    (h : BookedLikeTrans cfg tnow notes' l l' mode) :
    l' = l ∨ rankSum l' < rankSum l := by
  rcases h with h | ⟨idx, task, hget, hst, hm, ⟨he, hn, hl⟩ | ⟨he, hl⟩⟩
  · exact Or.inl h
  · right
    have := rankSum_set l idx task { task with status := .done } hget
    rw [← hl] at this
    simp [statusRank, hst] at this
    omega
  · right
    have := rankSum_set l idx task { task with status := .booked, returnMin := some tnow } hget
    rw [← hl] at this
    simp [statusRank, hst] at this
    omega

/-- A pointwise task property survives a booking transition when it
survives the two possible status updates. -/
theorem BookedLikeTrans.forall_tasks {cfg : Cfg} {tnow : ℤ} {notes' : List String}
    {l l' : List SimTask} {mode : String} {P : SimTask → Prop}
    (h : BookedLikeTrans cfg tnow notes' l l' mode)
    (hall : ∀ task ∈ l, P task)
    (hdone : ∀ task, P task → task.status = .todo → P { task with status := .done })
    (hbook : ∀ task, P task → task.status = .todo →
      P { task with status := .booked, returnMin := some tnow }) :
    ∀ task ∈ l', P task := by
  rcases h with h | ⟨idx, task, hget, hst, hm, ⟨he, hn, hl⟩ | ⟨he, hl⟩⟩
  · rw [h]; exact hall
  · intro x hx
    rw [hl] at hx
    rcases List.mem_or_eq_of_mem_set hx with hx | hx
    · exact hall x hx
    · rw [hx]
      exact hdone task (hall task (List.get?_mem hget)) hst
  · intro x hx
    rw [hl] at hx
    rcases List.mem_or_eq_of_mem_set hx with hx | hx
    · exact hall x hx
    · rw [hx]
      exact hbook task (hall task (List.get?_mem hget)) hst

/-- Lifting `bookOneNote_state` through the source's `if t >= next_..._min`
guard: whether or not the booking attempt runs, the same facts hold. -/
theorem optBookFacts (cfg : Cfg) (mode : String) (s₀ : SimState) (c : Prop) [Decidable c] :
    (if c then bookOneNote cfg mode s₀ else s₀).t = s₀.t ∧
    (if c then bookOneNote cfg mode s₀ else s₀).nextDpa = s₀.nextDpa ∧
    (if c then bookOneNote cfg mode s₀ else s₀).nextPp = s₀.nextPp ∧
    (if c then bookOneNote cfg mode s₀ else s₀).timeline = s₀.timeline ∧
    (∃ l, (if c then bookOneNote cfg mode s₀ else s₀).notes = s₀.notes ++ l) ∧
    (∀ e ∈ (if c then bookOneNote cfg mode s₀ else s₀).bookLog,
      e ∈ s₀.bookLog ∨ (e.bookedAt = s₀.t ∧ e.slot = s₀.t)) ∧
    BookedLikeTrans cfg s₀.t (if c then bookOneNote cfg mode s₀ else s₀).notes
      s₀.tasks (if c then bookOneNote cfg mode s₀ else s₀).tasks mode := by
  by_cases hc : c
  · rw [if_pos hc]
    obtain ⟨h1, h2, h3, h4, h5, h6, h7⟩ := bookOneNote_state cfg mode s₀
    refine ⟨h1, h2, h3, h4, h5, ?_, h7⟩
    intro e he
    rcases h6 with h6 | h6
    · rw [h6] at he
      exact Or.inl he
    · rw [h6] at he
      rcases List.mem_append.mp he with he | he
      · exact Or.inl he
      · right
        simp only [List.mem_singleton] at he
        rw [he]
        exact ⟨rfl, rfl⟩
  · rw [if_neg hc]
    exact ⟨rfl, rfl, rfl, rfl, ⟨[], by simp⟩, fun e he => Or.inl he, Or.inl rfl⟩

/-- State facts for the whole booking phase of one loop iteration: the
clock, rights and timeline are unchanged, the notes grow, every new log
event is an immediate booking at the current clock, and the task list
changes as one DPA booking transition followed by one PP booking
transition. -/
theorem bookPhase_state (cfg : Cfg) (s : SimState) :
    (bookPhase cfg s).t = s.t ∧
    (bookPhase cfg s).nextDpa = s.nextDpa ∧
    (bookPhase cfg s).nextPp = s.nextPp ∧
    (bookPhase cfg s).timeline = s.timeline ∧
    (∃ l, (bookPhase cfg s).notes = s.notes ++ l) ∧
    (∀ e ∈ (bookPhase cfg s).bookLog, e ∈ s.bookLog ∨ (e.bookedAt = s.t ∧ e.slot = s.t)) ∧
    (∃ mid : List SimTask,
      BookedLikeTrans cfg s.t (bookPhase cfg s).notes s.tasks mid MODE_DPA ∧
      BookedLikeTrans cfg s.t (bookPhase cfg s).notes mid (bookPhase cfg s).tasks MODE_PP) := by
  have f1 := optBookFacts cfg MODE_DPA s (s.nextDpa ≤ s.t)
  generalize hA : (if s.nextDpa ≤ s.t then bookOneNote cfg MODE_DPA s else s) = sA at f1
  have f2 := optBookFacts cfg MODE_PP sA (sA.nextPp ≤ sA.t)
  generalize hB : (if sA.nextPp ≤ sA.t then bookOneNote cfg MODE_PP sA else sA) = sB at f2
  have hbp : bookPhase cfg s = sB := by
    unfold bookPhase
    simp only [hA, hB]
  rw [hbp]
  obtain ⟨ht1, hd1, hp1, htl1, ⟨l1, hn1⟩, hlog1, htr1⟩ := f1
  obtain ⟨ht2, hd2, hp2, htl2, ⟨l2, hn2⟩, hlog2, htr2⟩ := f2
  refine ⟨by rw [ht2, ht1], by rw [hd2, hd1], by rw [hp2, hp1], by rw [htl2, htl1],
    ⟨l1 ++ l2, by rw [hn2, hn1, List.append_assoc]⟩, ?_, ?_⟩
  · intro e he
    rcases hlog2 e he with he' | he'
    · rcases hlog1 e he' with he'' | he''
      · exact Or.inl he''
      · exact Or.inr he''
    · rw [ht1] at he'
      exact Or.inr he'
  · refine ⟨sA.tasks, ?_, ?_⟩
    · refine htr1.mono_notes ?_
      intro x hx
      rw [hn2]
      exact List.mem_append_left _ hx
    · rw [← ht1]
      exact htr2

/-- Explicit effect of `do_booked` on a valid index. -/
theorem doBooked_state (cfg : Cfg) (s : SimState) (idx : ℕ) (task : SimTask)
    (h : s.tasks.get? idx = some task) :
    doBooked cfg s idx =
      { s with
        tasks := s.tasks.set idx { task with status := .done, returnMin := none }
        timeline := s.timeline ++
          [⟨none, s.t, min (s.t + durOf task) (TCLOSE cfg), task.park, task.attraction,
            task.mode, "DPA/PP 消化"⟩]
        nextDpa := if task.mode == MODE_DPA then min s.nextDpa (min (s.t + durOf task) (TCLOSE cfg))
          else s.nextDpa
        nextPp := if task.mode == MODE_PP then min s.nextPp (min (s.t + durOf task) (TCLOSE cfg))
          else s.nextPp
        t := min (s.t + durOf task) (TCLOSE cfg) + cfg.intervalMin } := by
  unfold doBooked
  rw [h]

/-- Explicit effect of `do_wait` on a valid index. -/
theorem doWait_state (cfg : Cfg) (s : SimState) (idx : ℕ) (task : SimTask)
    (h : s.tasks.get? idx = some task) :
    doWait cfg s idx =
      { s with
        tasks := s.tasks.set idx { task with status := .done }
        timeline := s.timeline ++
          [⟨some s.t, s.t + waitTotalOf cfg task (hourFromMin s.t cfg.openHour),
            min (s.t + waitTotalOf cfg task (hourFromMin s.t cfg.openHour) + durOf task)
              (TCLOSE cfg),
            task.park, task.attraction, task.mode,
            waitMemo (waitBaseOf cfg task (hourFromMin s.t cfg.openHour))
              (factorWaitMultiplier cfg.dfFactor task.park task.attraction
                (hourFromMin s.t cfg.openHour))
              (durOf task)⟩]
        t := min (s.t + waitTotalOf cfg task (hourFromMin s.t cfg.openHour) + durOf task)
          (TCLOSE cfg) + cfg.intervalMin } := by
  unfold doWait
  rw [h]

/-- `do_booked` and `do_wait` never touch the notes or the log, even on an
invalid index. -/
theorem doBooked_notes_log (cfg : Cfg) (s : SimState) (idx : ℕ) :
    (doBooked cfg s idx).notes = s.notes ∧ (doBooked cfg s idx).bookLog = s.bookLog := by
  unfold doBooked
  cases s.tasks.get? idx <;> exact ⟨rfl, rfl⟩

/-- `do_wait` preserves the notes and the log. -/
theorem doWait_notes_log (cfg : Cfg) (s : SimState) (idx : ℕ) :
    (doWait cfg s idx).notes = s.notes ∧ (doWait cfg s idx).bookLog = s.bookLog := by
  unfold doWait
  cases s.tasks.get? idx <;> exact ⟨rfl, rfl⟩

/-- Generic preservation through the fuel-indexed loop. -/
theorem loopO_preserves (cfg : Cfg) (P : SimState → Prop)
    (hstep : ∀ s s', (step cfg s = .cont s' ∨ step cfg s = .halt s') → P s → P s') :
    ∀ fuel s r, P s → loopO cfg fuel s = some r → P r := by
  intro fuel
  induction fuel with
  | zero => intro s r _ h; simp [loopO] at h
  | succ n ih =>
    intro s r hP h
    unfold loopO at h
    cases hs : step cfg s with
    | halt s' =>
      rw [hs] at h
      simp only [Option.some.injEq] at h
      rw [← h]
      exact hstep s s' (Or.inr hs) hP
    | cont s' =>
      rw [hs] at h
      exact ih s' r (hstep s s' (Or.inl hs) hP) h

/-- Generic preservation from the initial state to the output of
`build_schedule`. -/
theorem buildSchedule_preserves (cfg : Cfg) (plans : List Plan) (P : SimState → Prop)
    (hstep : ∀ s s', (step cfg s = .cont s' ∨ step cfg s = .halt s') → P s → P s')
    (hinit : P (initState plans)) : P (buildSchedule cfg plans) := by
  unfold buildSchedule
  cases h : loopO cfg (fuelFor cfg plans) (initState plans) with
  | none => exact hinit
  | some r =>
    exact loopO_preserves cfg P hstep (fuelFor cfg plans) (initState plans) r hinit h

/-- Every event ever logged is an immediate booking: its slot time equals
its booking time. -/
theorem bookLog_immediate (cfg : Cfg) (plans : List Plan) :
    ∀ e ∈ (buildSchedule cfg plans).bookLog, e.slot = e.bookedAt := by
  apply buildSchedule_preserves cfg plans (fun s => ∀ e ∈ s.bookLog, e.slot = e.bookedAt)
  · intro s s' hs hP
    have hres : s' = resState (step cfg s) := by
      rcases hs with hs | hs <;> rw [hs] <;> rfl
    rw [hres]
    refine step_cases cfg s (motive := fun r => ∀ e ∈ (resState r).bookLog, e.slot = e.bookedAt)
      ?_ ?_ ?_ ?_ ?_ ?_ ?_
    · intro _
      exact hP
    · intro idx ret _ _
      rw [resState, (doBooked_notes_log cfg s idx).2]
      exact hP
    · intro idx ret _ _ _
      rw [resState, (doBooked_notes_log cfg (bookPhase cfg s) idx).2]
      intro e he
      rcases (bookPhase_state cfg s).2.2.2.2.2.1 e he with he' | he'
      · exact hP e he'
      · rw [he'.2, he'.1]
    · intro idx task _ _ _ _
      rw [resState, (doWait_notes_log cfg (bookPhase cfg s) idx).2]
      intro e he
      rcases (bookPhase_state cfg s).2.2.2.2.2.1 e he with he' | he'
      · exact hP e he'
      · rw [he'.2, he'.1]
    · intro _ _ _ _ _
      rw [resState]
      intro e he
      rcases (bookPhase_state cfg s).2.2.2.2.2.1 e he with he' | he'
      · exact hP e he'
      · rw [he'.2, he'.1]
    · intro nb _ _ _ _ _ _
      rw [resState]
      intro e he
      rcases (bookPhase_state cfg s).2.2.2.2.2.1 e he with he' | he'
      · exact hP e he'
      · rw [he'.2, he'.1]
    · intro nb _ _ _ _ _ _
      rw [resState]
      intro e he
      rcases (bookPhase_state cfg s).2.2.2.2.2.1 e he with he' | he'
      · exact hP e he'
      · rw [he'.2, he'.1]
  · intro e he
    simp [initState] at he

/-- C1: in every run and for each constrained mode, consecutive bookings
whose returned slot time is strictly in the future are separated by at
least the mode's cooldown (60 minutes for DPA, 120 for PP).  The property
holds because the engine never produces such a booking: every successful
booking's slot is the booking instant itself (`bookLog_immediate`), so
the future-booking trace of either mode is empty. -/
theorem cooldown_between_future_bookings (cfg : Cfg) (plans : List Plan) :
    List.Chain' (fun a b : BookEvent => a.bookedAt + 60 ≤ b.bookedAt)
      (futureBookings MODE_DPA (buildSchedule cfg plans).bookLog) ∧
    List.Chain' (fun a b : BookEvent => a.bookedAt + 120 ≤ b.bookedAt)
      (futureBookings MODE_PP (buildSchedule cfg plans).bookLog) := by
  have hnil : ∀ m, futureBookings m (buildSchedule cfg plans).bookLog = [] := by
    intro m
    unfold futureBookings
    rw [List.filter_eq_nil_iff]
    intro e he
    have := bookLog_immediate cfg plans e he
    simp [this]
  rw [hnil MODE_DPA, hnil MODE_PP]
  exact ⟨List.chain'_nil, List.chain'_nil⟩

/-- The time-of-day multiplier is non-negative for a well-formed factor
dataset (all defaults are non-negative). -/
theorem factorWaitMultiplier_nonneg (df : List FactorRow) (park attr : String) (hour : ℤ)
    (h : ∀ row ∈ df,
      (∀ v, row.waitMultMorning = some v → 0 ≤ v) ∧
      (∀ v, row.waitMultNoon = some v → 0 ≤ v) ∧
      (∀ v, row.waitMultEvening = some v → 0 ≤ v)) :
    0 ≤ factorWaitMultiplier df park attr hour := by
  unfold factorWaitMultiplier
  cases hemp : df.isEmpty
  · cases hf : df.find? (fun r => r.parkNorm == park && r.attrNorm == attr) with
    | none =>
      simp only [hemp, hf]
      split_ifs <;> norm_num
    | some r =>
      have hr : r ∈ df := List.mem_of_find?_eq_some hf
      obtain ⟨hm, hn, he⟩ := h r hr
      have hm' : 0 ≤ (r.waitMultMorning).getD 1 := by
        cases hx : r.waitMultMorning with
        | none => norm_num
        | some v => simpa using hm v hx
      have hn' : 0 ≤ (r.waitMultNoon).getD (23/20) := by
        cases hx : r.waitMultNoon with
        | none => norm_num
        | some v => simpa using hn v hx
      have he' : 0 ≤ (r.waitMultEvening).getD (9/10) := by
        cases hx : r.waitMultEvening with
        | none => norm_num
        | some v => simpa using he v hx
      simp only [hemp, hf]
      split_ifs <;> first | assumption | norm_num
  · simp only [hemp]
    split_ifs <;> norm_num

/-- Well-formedness of a task list: any wait overrides are non-negative. -/
def OverridesOk (tasks : List SimTask) : Prop :=
  ∀ task ∈ tasks, ∀ v, task.waitOverride = some v → 0 ≤ v

/-- Well-formedness of a task list: any stored return times are
non-negative. -/
def RetsOk (tasks : List SimTask) : Prop :=
  ∀ task ∈ tasks, ∀ r, task.returnMin = some r → 0 ≤ r

/-- The base wait is non-negative for well-formed data. -/
theorem waitBaseOf_nonneg (cfg : Cfg) (task : SimTask) (hour : ℤ)
    (hg : GoodCfg cfg) (ho : ∀ v, task.waitOverride = some v → 0 ≤ v) :
    0 ≤ waitBaseOf cfg task hour := by
  unfold waitBaseOf
  cases hx : task.waitOverride with
  | some w => exact ho w hx
  | none => exact getWaitMinutes_nonneg cfg.dfWait task.park task.attraction hour hg.2.1

/-- The total queueing time is non-negative for well-formed data. -/
theorem waitTotalOf_nonneg (cfg : Cfg) (task : SimTask) (hour : ℤ)
    (hg : GoodCfg cfg) (ho : ∀ v, task.waitOverride = some v → 0 ≤ v) :
    0 ≤ waitTotalOf cfg task hour := by
  unfold waitTotalOf
  apply pyRound_nonneg
  exact mul_nonneg (waitBaseOf_nonneg cfg task hour hg ho)
    (factorWaitMultiplier_nonneg cfg.dfFactor task.park task.attraction hour hg.2.2)

/-- The run invariant behind C5 (and the termination measure): the clock
is non-negative, overrides and stored returns are non-negative, the
timeline's start times are non-decreasing, no row's end exceeds the
closing time, and (while the loop can still run) the last row starts no
later than the clock. -/
def RunInv (cfg : Cfg) (s : SimState) : Prop :=
  0 ≤ s.t ∧
  OverridesOk s.tasks ∧
  RetsOk s.tasks ∧
  List.Chain' (fun a b : Row => a.startMin ≤ b.startMin) s.timeline ∧
  (∀ r ∈ s.timeline, r.endMin ≤ TCLOSE cfg) ∧
  (∀ r, s.timeline.getLast? = some r → s.t < TCLOSE cfg → r.startMin ≤ s.t)

instance (cfg : Cfg) (s : SimState) : Decidable (RunInv cfg s) := by
  unfold RunInv OverridesOk RetsOk
  infer_instance

/-- The booking phase preserves the run invariant. -/
theorem RunInv_bookPhase (cfg : Cfg) (s : SimState) (hInv : RunInv cfg s) :
    RunInv cfg (bookPhase cfg s) := by
  obtain ⟨ht0, ho, hr, hch, hend, hlast⟩ := hInv
  obtain ⟨ht, _, _, htl, _, _, ⟨mid, htr1, htr2⟩⟩ := bookPhase_state cfg s
  have keep : ∀ (mode : String) (l l' : List SimTask) (notes' : List String),
      BookedLikeTrans cfg s.t notes' l l' mode →
      (∀ task ∈ l, (∀ v, task.waitOverride = some v → 0 ≤ v) ∧
        (∀ rv, task.returnMin = some rv → 0 ≤ rv)) →
      ∀ task ∈ l', (∀ v, task.waitOverride = some v → 0 ≤ v) ∧
        (∀ rv, task.returnMin = some rv → 0 ≤ rv) := by
    intro mode l l' notes' htr hall
    refine htr.forall_tasks hall ?_ ?_
    · intro task hp _
      exact ⟨hp.1, hp.2⟩
    · intro task hp _
      refine ⟨hp.1, ?_⟩
      intro rv hrv
      simp only [Option.some.injEq] at hrv
      omega
  have hmid := keep MODE_DPA s.tasks mid (bookPhase cfg s).notes htr1
    (fun task htk => ⟨ho task htk, hr task htk⟩)
  have hfin := keep MODE_PP mid (bookPhase cfg s).tasks (bookPhase cfg s).notes htr2 hmid
  refine ⟨by rw [ht]; exact ht0, ?_, ?_, by rw [htl]; exact hch,
    by rw [htl]; exact hend, ?_⟩
  · intro task htk v hv
    exact (hfin task htk).1 v hv
  · intro task htk rv hrv
    exact (hfin task htk).2 rv hrv
  · intro r hr' hlt
    rw [htl] at hr'
    rw [ht] at hlt ⊢
    exact hlast r hr' hlt

/-- Consuming a booked task preserves the run invariant. -/
theorem RunInv_doBooked (cfg : Cfg) (s : SimState) (idx : ℕ) (task : SimTask)
    (hg : GoodCfg cfg) (hInv : RunInv cfg s) (ht : s.t < TCLOSE cfg)
    (hget : s.tasks.get? idx = some task) :
    RunInv cfg (doBooked cfg s idx) := by
  obtain ⟨ht0, ho, hr, hch, hend, hlast⟩ := hInv
  rw [doBooked_state cfg s idx task hget]
  have hd := durOf_nonneg task
  have hi := hg.1
  have hmin : s.t ≤ min (s.t + durOf task) (TCLOSE cfg) := le_min (by omega) (by omega)
  refine ⟨by dsimp only; omega, ?_, ?_, ?_, ?_, ?_⟩
  · intro x hx v hv
    rcases List.mem_or_eq_of_mem_set hx with hx | hx
    · exact ho x hx v hv
    · subst hx
      exact ho task (List.get?_mem hget) v hv
  · intro x hx rv hrv
    rcases List.mem_or_eq_of_mem_set hx with hx | hx
    · exact hr x hx rv hrv
    · subst hx
      simp at hrv
  · refine List.chain'_append.mpr ⟨hch, List.chain'_singleton _, ?_⟩
    intro x hx y hy
    simp only [List.head?_cons, Option.mem_def, Option.some.injEq] at hy
    subst hy
    exact hlast x hx ht
  · intro r hr'
    rcases List.mem_append.mp hr' with hr' | hr'
    · exact hend r hr'
    · simp only [List.mem_singleton] at hr'
      subst hr'
      exact min_le_right _ _
  · intro r hr' _
    rw [List.getLast?_concat] at hr'
    simp only [Option.some.injEq] at hr'
    subst hr'
    dsimp only
    omega

/-- Running a queue task preserves the run invariant (well-formed data
keeps the queueing time non-negative). -/
theorem RunInv_doWait (cfg : Cfg) (s : SimState) (idx : ℕ) (task : SimTask)
    (hg : GoodCfg cfg) (hInv : RunInv cfg s) (ht : s.t < TCLOSE cfg)
    (hget : s.tasks.get? idx = some task) :
    RunInv cfg (doWait cfg s idx) := by
  obtain ⟨ht0, ho, hr, hch, hend, hlast⟩ := hInv
  rw [doWait_state cfg s idx task hget]
  have hd := durOf_nonneg task
  have hi := hg.1
  have hw : 0 ≤ waitTotalOf cfg task (hourFromMin s.t cfg.openHour) :=
    waitTotalOf_nonneg cfg task _ hg (ho task (List.get?_mem hget))
  have hmin : s.t ≤ min (s.t + waitTotalOf cfg task (hourFromMin s.t cfg.openHour) + durOf task)
      (TCLOSE cfg) := le_min (by omega) (by omega)
  refine ⟨by dsimp only; omega, ?_, ?_, ?_, ?_, ?_⟩
  · intro x hx v hv
    rcases List.mem_or_eq_of_mem_set hx with hx | hx
    · exact ho x hx v hv
    · subst hx
      exact ho task (List.get?_mem hget) v hv
  · intro x hx rv hrv
    rcases List.mem_or_eq_of_mem_set hx with hx | hx
    · exact hr x hx rv hrv
    · subst hx
      exact hr task (List.get?_mem hget) rv hrv
  · refine List.chain'_append.mpr ⟨hch, List.chain'_singleton _, ?_⟩
    intro x hx y hy
    simp only [List.head?_cons, Option.mem_def, Option.some.injEq] at hy
    subst hy
    dsimp only
    have := hlast x hx ht
    omega
  · intro r hr'
    rcases List.mem_append.mp hr' with hr' | hr'
    · exact hend r hr'
    · simp only [List.mem_singleton] at hr'
      subst hr'
      exact min_le_right _ _
  · intro r hr' hlt
    rw [List.getLast?_concat] at hr'
    simp only [Option.some.injEq] at hr'
    subst hr'
    dsimp only at hlt ⊢
    rcases le_total (s.t + waitTotalOf cfg task (hourFromMin s.t cfg.openHour) + durOf task)
        (TCLOSE cfg) with hc | hc
    · rw [min_eq_left hc] at hlt ⊢
      omega
    · rw [min_eq_right hc] at hlt ⊢
      omega

/-- The idle block preserves the run invariant. -/
theorem RunInv_appendIdle (cfg : Cfg) (s : SimState) (nb : ℤ)
    (hInv : RunInv cfg s) (ht : s.t < TCLOSE cfg) (hlt : s.t < nb) :
    RunInv cfg (appendIdle cfg s nb) := by
  obtain ⟨ht0, ho, hr, hch, hend, hlast⟩ := hInv
  unfold appendIdle
  refine ⟨by dsimp only; omega, ho, hr, ?_, ?_, ?_⟩
  · refine List.chain'_append.mpr ⟨hch, List.chain'_singleton _, ?_⟩
    intro x hx y hy
    simp only [List.head?_cons, Option.mem_def, Option.some.injEq] at hy
    subst hy
    exact hlast x hx ht
  · intro r hr'
    rcases List.mem_append.mp hr' with hr' | hr'
    · exact hend r hr'
    · simp only [List.mem_singleton] at hr'
      subst hr'
      exact min_le_right _ _
  · intro r hr' _
    rw [List.getLast?_concat] at hr'
    simp only [Option.some.injEq] at hr'
    subst hr'
    dsimp only
    omega

/-- One loop iteration preserves the run invariant on well-formed data. -/
theorem RunInv_step (cfg : Cfg) (hg : GoodCfg cfg) :
    ∀ s s', (step cfg s = .cont s' ∨ step cfg s = .halt s') →
      RunInv cfg s → RunInv cfg s' := by
  intro s s' hs hInv
  have hres : s' = resState (step cfg s) := by
    rcases hs with hs | hs <;> rw [hs] <;> rfl
  rw [hres]
  refine step_cases cfg s (motive := fun r => RunInv cfg (resState r)) ?_ ?_ ?_ ?_ ?_ ?_ ?_
  · intro _
    exact hInv
  · intro idx ret ht hfb
    obtain ⟨task, hget, -, -, -⟩ := findBookedReady_valid s.tasks s.t idx ret hfb
    exact RunInv_doBooked cfg s idx task hg hInv ht hget
  · intro idx ret ht hfb hfb2
    obtain ⟨task, hget, -, -, -⟩ := findBookedReady_valid _ _ idx ret hfb2
    have hInv2 := RunInv_bookPhase cfg s hInv
    have ht2 : (bookPhase cfg s).t < TCLOSE cfg := by
      rw [(bookPhase_state cfg s).1]
      exact ht
    exact RunInv_doBooked cfg (bookPhase cfg s) idx task hg hInv2 ht2 hget
  · intro idx task ht hfb hfb2 hpw
    obtain ⟨hget, -, -⟩ := pickWaitReady_valid cfg _ _ idx task hpw
    have hInv2 := RunInv_bookPhase cfg s hInv
    have ht2 : (bookPhase cfg s).t < TCLOSE cfg := by
      rw [(bookPhase_state cfg s).1]
      exact ht
    exact RunInv_doWait cfg (bookPhase cfg s) idx task hg hInv2 ht2 hget
  · intro ht hfb hfb2 hpw hnb
    exact RunInv_bookPhase cfg s hInv
  · intro nb ht hfb hfb2 hpw hnb hlt
    have hInv2 := RunInv_bookPhase cfg s hInv
    have ht2 : (bookPhase cfg s).t < TCLOSE cfg := by
      rw [(bookPhase_state cfg s).1]
      exact ht
    exact RunInv_appendIdle cfg (bookPhase cfg s) nb hInv2 ht2 hlt
  · intro nb ht hfb hfb2 hpw hnb hlt
    dsimp only [resState]
    obtain ⟨ht0, ho, hr, hch, hend, hlast⟩ := RunInv_bookPhase cfg s hInv
    refine ⟨by dsimp only; omega, ho, hr, hch, hend, ?_⟩
    intro r hr' hlt'
    dsimp only at hlt' ⊢
    have := hlast r hr' (by omega)
    omega

/-- The run invariant holds at the initial state. -/
theorem RunInv_init (cfg : Cfg) (plans : List Plan) (hp : GoodPlans plans) :
    RunInv cfg (initState plans) := by
  refine ⟨le_refl 0, ?_, ?_, List.chain'_nil, ?_, ?_⟩
  · intro task htk v hv
    simp only [initState, List.mem_map] at htk
    obtain ⟨p, hpm, hpe⟩ := htk
    subst hpe
    exact hp p hpm v hv
  · intro task htk rv hrv
    simp only [initState, List.mem_map] at htk
    obtain ⟨p, hpm, hpe⟩ := htk
    subst hpe
    simp [planToTask] at hrv
  · intro r hr
    simp [initState] at hr
  · intro r hr
    simp [initState] at hr

/-- C5: on well-formed data, the emitted timeline rows' start times are
non-decreasing in emission order, and no row's end time exceeds the close
time by more than one nominal-duration unit (in fact `add_event` clamps
every end time to the close time itself). -/
theorem timeline_sorted_and_bounded (cfg : Cfg) (plans : List Plan)
    (hg : GoodCfg cfg) (hp : GoodPlans plans) :
    List.Chain' (fun a b : Row => a.startMin ≤ b.startMin)
      (buildSchedule cfg plans).timeline ∧
    ∀ r ∈ (buildSchedule cfg plans).timeline, r.endMin ≤ TCLOSE cfg + 10 := by
  have hInv : RunInv cfg (buildSchedule cfg plans) :=
    buildSchedule_preserves cfg plans (RunInv cfg) (RunInv_step cfg hg)
      (RunInv_init cfg plans hp)
  obtain ⟨-, -, -, hch, hend, -⟩ := hInv
  exact ⟨hch, fun r hr => le_trans (hend r hr) (by omega)⟩

/-- A plain configuration for witnesses: empty datasets, interval 10,
window 9–21. -/
def plainCfg : Cfg := ⟨[], [], [], 2, 10, 9, 21⟩

/-- A plain one-task queue plan for witnesses. -/
def plainWaitPlan : Plan := ⟨"TDS", "A", MODE_WAIT, some 5, none⟩

/-- C5 witness: a one-queue-task run on the plain configuration. -/
theorem timeline_sorted_and_bounded_witness :
    GoodCfg plainCfg ∧ GoodPlans [plainWaitPlan] ∧
    (List.Chain' (fun a b : Row => a.startMin ≤ b.startMin)
      (buildSchedule plainCfg [plainWaitPlan]).timeline ∧
    ∀ r ∈ (buildSchedule plainCfg [plainWaitPlan]).timeline,
      r.endMin ≤ TCLOSE plainCfg + 10) :=
  ⟨by decide, by decide,
    timeline_sorted_and_bounded plainCfg [plainWaitPlan] (by decide) (by decide)⟩

/-- The initial rank sum: two units of work per plan. -/
theorem rankSum_init (plans : List Plan) :
    rankSum (plans.map planToTask) = 2 * plans.length := by
  induction plans with
  | nil => rfl
  | cons p rest ih =>
    unfold rankSum at ih ⊢
    simp only [List.map_cons, List.sum_cons, List.length_cons]
    have hp : statusRank (planToTask p).status = 2 := rfl
    omega

/-- A continuing iteration starts below the closing time. -/
theorem step_cont_lt (cfg : Cfg) (s s' : SimState) (h : step cfg s = .cont s') :
    s.t < TCLOSE cfg := by
  by_cases ht : s.t < TCLOSE cfg
  · exact ht
  · unfold step at h
    rw [if_neg ht] at h
    simp at h

/-- The rank sum never grows across the booking phase. -/
theorem bookPhase_rank (cfg : Cfg) (s : SimState) :
    rankSum (bookPhase cfg s).tasks ≤ rankSum s.tasks := by
  obtain ⟨-, -, -, -, -, -, ⟨mid, htr1, htr2⟩⟩ := bookPhase_state cfg s
  have h1 : rankSum mid ≤ rankSum s.tasks := by
    rcases htr1.rank with h | h
    · rw [h]
    · omega
  have h2 : rankSum (bookPhase cfg s).tasks ≤ rankSum mid := by
    rcases htr2.rank with h | h
    · rw [h]
    · omega
  omega

/-- Every continuing iteration makes progress: it strictly advances the
clock without adding work, or strictly removes work without rewinding the
clock. -/
theorem step_progress (cfg : Cfg) (hg : GoodCfg cfg) (s s' : SimState)
    (hInv : RunInv cfg s) (hstep : step cfg s = .cont s') :
    (s.t < s'.t ∧ rankSum s'.tasks ≤ rankSum s.tasks) ∨
    (s.t ≤ s'.t ∧ rankSum s'.tasks < rankSum s.tasks) := by
  have hkey : ∀ s'', step cfg s = .cont s'' →
      (s.t < s''.t ∧ rankSum s''.tasks ≤ rankSum s.tasks) ∨
      (s.t ≤ s''.t ∧ rankSum s''.tasks < rankSum s.tasks) := by
    refine step_cases cfg s (motive := fun r => ∀ s'', r = .cont s'' →
      (s.t < s''.t ∧ rankSum s''.tasks ≤ rankSum s.tasks) ∨
      (s.t ≤ s''.t ∧ rankSum s''.tasks < rankSum s.tasks)) ?_ ?_ ?_ ?_ ?_ ?_ ?_
    · intro _ s'' h
      simp at h
    · intro idx ret ht hfb s'' h
      simp only [StepRes.cont.injEq] at h
      subst h
      obtain ⟨task, hget, hst, -, -⟩ := findBookedReady_valid s.tasks s.t idx ret hfb
      rw [doBooked_state cfg s idx task hget]
      right
      have hd := durOf_nonneg task
      have hi := hg.1
      have hrk := rankSum_set s.tasks idx task
        { task with status := .done, returnMin := none } hget
      constructor
      · dsimp only
        have : s.t ≤ min (s.t + durOf task) (TCLOSE cfg) := le_min (by omega) (by omega)
        omega
      · dsimp only
        rw [hst] at hrk
        simp [statusRank] at hrk
        omega
    · intro idx ret ht hfb hfb2 s'' h
      simp only [StepRes.cont.injEq] at h
      subst h
      obtain ⟨task, hget, hst, -, -⟩ := findBookedReady_valid _ _ idx ret hfb2
      rw [doBooked_state cfg (bookPhase cfg s) idx task hget]
      right
      have hd := durOf_nonneg task
      have hi := hg.1
      have hbt : (bookPhase cfg s).t = s.t := (bookPhase_state cfg s).1
      have hbr := bookPhase_rank cfg s
      have hrk := rankSum_set (bookPhase cfg s).tasks idx task
        { task with status := .done, returnMin := none } hget
      constructor
      · dsimp only
        rw [hbt]
        have : s.t ≤ min (s.t + durOf task) (TCLOSE cfg) := le_min (by omega) (by omega)
        omega
      · dsimp only
        rw [hst] at hrk
        simp [statusRank] at hrk
        omega
    · intro idx task ht hfb hfb2 hpw s'' h
      simp only [StepRes.cont.injEq] at h
      subst h
      obtain ⟨hget, hst, -⟩ := pickWaitReady_valid cfg _ _ idx task hpw
      have hInv2 := RunInv_bookPhase cfg s hInv
      rw [doWait_state cfg (bookPhase cfg s) idx task hget]
      right
      have hd := durOf_nonneg task
      have hi := hg.1
      have hbt : (bookPhase cfg s).t = s.t := (bookPhase_state cfg s).1
      have hbr := bookPhase_rank cfg s
      have hw : 0 ≤ waitTotalOf cfg task (hourFromMin (bookPhase cfg s).t cfg.openHour) :=
        waitTotalOf_nonneg cfg task _ hg (hInv2.2.1 task (List.get?_mem hget))
      have hrk := rankSum_set (bookPhase cfg s).tasks idx task
        { task with status := .done } hget
      constructor
      · dsimp only
        rw [hbt] at *
        have : s.t ≤ min (s.t + waitTotalOf cfg task (hourFromMin s.t cfg.openHour) +
            durOf task) (TCLOSE cfg) := le_min (by omega) (by omega)
        omega
      · dsimp only
        rw [hst] at hrk
        simp [statusRank] at hrk
        omega
    · intro ht hfb hfb2 hpw hnb s'' h
      simp at h
    · intro nb ht hfb hfb2 hpw hnb hlt s'' h
      simp only [StepRes.cont.injEq] at h
      subst h
      left
      unfold appendIdle
      have hbt : (bookPhase cfg s).t = s.t := (bookPhase_state cfg s).1
      have hbr := bookPhase_rank cfg s
      exact ⟨by dsimp only; omega, by dsimp only; omega⟩
    · intro nb ht hfb hfb2 hpw hnb hlt s'' h
      simp only [StepRes.cont.injEq] at h
      subst h
      left
      have hbt : (bookPhase cfg s).t = s.t := (bookPhase_state cfg s).1
      have hbr := bookPhase_rank cfg s
      exact ⟨by dsimp only; omega, by dsimp only; omega⟩
  exact hkey s' hstep

/-- With fuel exceeding the measure (remaining window plus remaining task
rank), the loop reaches its end. -/
theorem loopO_isSome (cfg : Cfg) (hg : GoodCfg cfg) :
    ∀ fuel s, RunInv cfg s →
      (TCLOSE cfg - s.t).toNat + rankSum s.tasks < fuel →
      (loopO cfg fuel s).isSome = true := by
  intro fuel
  induction fuel with
  | zero => intro s _ h; omega
  | succ n ih =>
    intro s hInv hm
    unfold loopO
    cases hs : step cfg s with
    | halt s' => simp
    | cont s' =>
      apply ih s' (RunInv_step cfg hg s s' (Or.inl hs) hInv)
      have hlt := step_cont_lt cfg s s' hs
      rcases step_progress cfg hg s s' hInv hs with ⟨h1, h2⟩ | ⟨h1, h2⟩ <;> omega

/-- C4 (amended): on well-formed data the main loop terminates (the fuel
`build_schedule` runs with is never exhausted), and every continuing
iteration from an invariant-satisfying state either strictly increases
the simulated clock (without adding work) or strictly decreases the
remaining work rank (without rewinding the clock); an iteration need not
advance the clock on its own. -/
theorem loop_terminates_and_iterations_progress (cfg : Cfg) (plans : List Plan)
    (s s' : SimState) (hg : GoodCfg cfg) (hp : GoodPlans plans)
    (hs : RunInv cfg s) (hstep : step cfg s = .cont s') :
    (loopO cfg (fuelFor cfg plans) (initState plans)).isSome = true ∧
    (s.t < s'.t ∨ (s.t ≤ s'.t ∧ rankSum s'.tasks < rankSum s.tasks)) := by
  constructor
  · apply loopO_isSome cfg hg _ _ (RunInv_init cfg plans hp)
    have hr := rankSum_init plans
    show (TCLOSE cfg - (0 : ℤ)).toNat + rankSum ((initState plans).tasks) < fuelFor cfg plans
    unfold initState at *
    unfold fuelFor
    dsimp only at *
    omega
  · rcases step_progress cfg hg s s' hs hstep with ⟨h1, -⟩ | ⟨h1, h2⟩
    · exact Or.inl h1
    · exact Or.inr ⟨h1, h2⟩

/-- The state after the first iteration of the C4 witness run. -/
def c4WitNext : SimState :=
  ⟨[⟨"TDS", "A", MODE_WAIT, 5, .done, none, none⟩], 45, 0, 0,
    [⟨some 0, 30, 35, "TDS", "A", MODE_WAIT, waitMemo 30 1 5⟩], [], []⟩

/-- C4 witness: the plain one-queue-task run; its first iteration is a
continuing step, the loop's fuel suffices, and the iteration advances the
clock from 0 to 45. -/
theorem loop_terminates_and_iterations_progress_witness :
    GoodCfg plainCfg ∧ GoodPlans [plainWaitPlan] ∧
    RunInv plainCfg (initState [plainWaitPlan]) ∧
    step plainCfg (initState [plainWaitPlan]) = .cont c4WitNext ∧
    ((loopO plainCfg (fuelFor plainCfg [plainWaitPlan])
        (initState [plainWaitPlan])).isSome = true ∧
      ((initState [plainWaitPlan]).t < c4WitNext.t ∨
        ((initState [plainWaitPlan]).t ≤ c4WitNext.t ∧
          rankSum c4WitNext.tasks < rankSum (initState [plainWaitPlan]).tasks))) :=
  ⟨by decide, by decide, by decide, by decide,
    loop_terminates_and_iterations_progress plainCfg [plainWaitPlan]
      (initState [plainWaitPlan]) c4WitNext (by decide) (by decide) (by decide) (by decide)⟩

/-- Once the clock is non-negative, the current hour bucket is at or past
the open hour. -/
theorem hourFromMin_ge_open (t openHour : ℤ) (h : 0 ≤ t) :
    openHour ≤ hourFromMin t openHour := by
  unfold hourFromMin
  have h1 : Int.ediv (openHour * 60) 60 = openHour := Int.mul_ediv_cancel _ (by norm_num)
  have h2 : Int.ediv (openHour * 60) 60 ≤ Int.ediv (openHour * 60 + t) 60 :=
    Int.ediv_le_ediv (by norm_num) (by omega)
  omega

/-- When the effective sellout hour is at most the open hour, the slot
computation is empty at every non-negative clock. -/
theorem epr_none_of_eff_le (cfg : Cfg) (task : SimTask) (nowMin e : ℤ)
    (he : effSelloutHour cfg task.park task.attraction task.mode = some e)
    (hle : e ≤ cfg.openHour) (ht : 0 ≤ nowMin) :
    earliestPossibleReturnMin cfg task nowMin = none := by
  unfold earliestPossibleReturnMin
  rw [he]
  dsimp only
  rw [if_pos (le_trans hle (hourFromMin_ge_open nowMin cfg.openHour ht))]

/-- The rejection invariant behind the amended C2: no task with the given
key and mode is ever booked, any such task already marked done has its
sellout note recorded, and no timeline row carries the key and mode. -/
def RejectInv (cfg : Cfg) (park attr m : String) (s : SimState) : Prop :=
  (∀ task ∈ s.tasks, task.park = park → task.attraction = attr → task.mode = m →
    task.status ≠ .booked ∧ (task.status = .done → selloutNote attr m ∈ s.notes)) ∧
  (∀ r ∈ s.timeline, ¬(r.park = park ∧ r.attraction = attr ∧ r.mode = m))

/-- The task clause of the rejection invariant survives one booking
transition when the key's effective sellout hour is at most the open
hour. -/
theorem RejectInv_tasks_trans (cfg : Cfg) (park attr m : String) (e : ℤ) (μ : String)
    (he : effSelloutHour cfg park attr m = some e) (hle : e ≤ cfg.openHour)
    (tnow : ℤ) (ht0 : 0 ≤ tnow) (notesF : List String) (l l' : List SimTask)
    (htr : BookedLikeTrans cfg tnow notesF l l' μ)
    (hall : ∀ task ∈ l, task.park = park → task.attraction = attr → task.mode = m →
      task.status ≠ .booked ∧ (task.status = .done → selloutNote attr m ∈ notesF)) :
    ∀ task ∈ l', task.park = park → task.attraction = attr → task.mode = m →
      task.status ≠ .booked ∧ (task.status = .done → selloutNote attr m ∈ notesF) := by
  rcases htr with h | ⟨idx, task, hget, hst, hmode, ⟨hepr, hnote, hl⟩ | ⟨hepr, hl⟩⟩
  · rw [h]
    exact hall
  · intro x hx hp ha hm'
    rw [hl] at hx
    rcases List.mem_or_eq_of_mem_set hx with hx | hx
    · exact hall x hx hp ha hm'
    · subst hx
      dsimp only at hp ha hm'
      refine ⟨by simp, fun _ => ?_⟩
      rw [← ha, ← hm', hmode]
      exact hnote
  · intro x hx hp ha hm'
    rw [hl] at hx
    rcases List.mem_or_eq_of_mem_set hx with hx | hx
    · exact hall x hx hp ha hm'
    · subst hx
      dsimp only at hp ha hm'
      exfalso
      have he' : effSelloutHour cfg task.park task.attraction task.mode = some e := by
        rw [hp, ha, hm']
        exact he
      have := epr_none_of_eff_le cfg task tnow e he' hle ht0
      rw [this] at hepr
      exact Option.noConfusion hepr

/-- Consuming a booked task preserves the rejection invariant: the
consumed task cannot carry the rejected key (it would have to be booked,
which the invariant excludes), so neither the new row nor the status
change touches the key. -/
theorem RejectInv_doBooked (cfg : Cfg) (park attr m : String) (s : SimState)
    (idx : ℕ) (ret : ℤ) (hRej : RejectInv cfg park attr m s)
    (hfb : findBookedReady s.tasks s.t = some (idx, ret)) :
    RejectInv cfg park attr m (doBooked cfg s idx) := by
  obtain ⟨task, hget, hst, -, -⟩ := findBookedReady_valid s.tasks s.t idx ret hfb
  have hkey : ¬(task.park = park ∧ task.attraction = attr ∧ task.mode = m) := by
    rintro ⟨hp, ha, hm'⟩
    exact (hRej.1 task (List.get?_mem hget) hp ha hm').1 hst
  rw [doBooked_state cfg s idx task hget]
  constructor
  · intro x hx hp ha hm'
    dsimp only at hx ⊢
    rcases List.mem_or_eq_of_mem_set hx with hx | hx
    · exact hRej.1 x hx hp ha hm'
    · subst hx
      dsimp only at hp ha hm'
      exact absurd ⟨hp, ha, hm'⟩ hkey
  · intro r hr
    dsimp only at hr
    rcases List.mem_append.mp hr with hr | hr
    · exact hRej.2 r hr
    · simp only [List.mem_singleton] at hr
      subst hr
      exact hkey

/-- Running a queue task preserves the rejection invariant: the task is a
`MODE_WAIT` task, and the rejected mode is a constrained mode. -/
theorem RejectInv_doWait (cfg : Cfg) (park attr m : String) (s : SimState)
    (idx : ℕ) (task : SimTask) (hmw : m ≠ MODE_WAIT)
    (hRej : RejectInv cfg park attr m s)
    (hget : s.tasks.get? idx = some task) (hmode : task.mode = MODE_WAIT) :
    RejectInv cfg park attr m (doWait cfg s idx) := by
  have hkey : ¬(task.park = park ∧ task.attraction = attr ∧ task.mode = m) := by
    rintro ⟨-, -, hm'⟩
    rw [hmode] at hm'
    exact hmw hm'.symm
  rw [doWait_state cfg s idx task hget]
  constructor
  · intro x hx hp ha hm'
    dsimp only at hx ⊢
    rcases List.mem_or_eq_of_mem_set hx with hx | hx
    · exact hRej.1 x hx hp ha hm'
    · subst hx
      dsimp only at hp ha hm'
      exact absurd ⟨hp, ha, hm'⟩ hkey
  · intro r hr
    dsimp only at hr
    rcases List.mem_append.mp hr with hr | hr
    · exact hRej.2 r hr
    · simp only [List.mem_singleton] at hr
      subst hr
      exact hkey

/-- The booking phase preserves the rejection invariant when the key's
effective sellout hour is at most the open hour: any booking attempt on a
keyed task fails and records the sellout note. -/
theorem RejectInv_bookPhase (cfg : Cfg) (park attr m : String) (e : ℤ) (s : SimState)
    (he : effSelloutHour cfg park attr m = some e) (hle : e ≤ cfg.openHour)
    (ht0 : 0 ≤ s.t) (hRej : RejectInv cfg park attr m s) :
    RejectInv cfg park attr m (bookPhase cfg s) := by
  obtain ⟨-, -, -, htl, ⟨lnew, hn⟩, -, ⟨mid, htr1, htr2⟩⟩ := bookPhase_state cfg s
  have hsub : ∀ x ∈ s.notes, x ∈ (bookPhase cfg s).notes := by
    intro x hx
    rw [hn]
    exact List.mem_append_left _ hx
  have hall0 : ∀ task ∈ s.tasks, task.park = park → task.attraction = attr →
      task.mode = m → task.status ≠ .booked ∧
      (task.status = .done → selloutNote attr m ∈ (bookPhase cfg s).notes) := by
    intro task htk hp ha hm'
    obtain ⟨h1, h2⟩ := hRej.1 task htk hp ha hm'
    exact ⟨h1, fun hd => hsub _ (h2 hd)⟩
  have hmid := RejectInv_tasks_trans cfg park attr m e MODE_DPA he hle s.t ht0
    (bookPhase cfg s).notes s.tasks mid htr1 hall0
  have hfin := RejectInv_tasks_trans cfg park attr m e MODE_PP he hle s.t ht0
    (bookPhase cfg s).notes mid (bookPhase cfg s).tasks htr2 hmid
  constructor
  · exact hfin
  · intro r hr
    rw [htl] at hr
    exact hRej.2 r hr

/-- One loop iteration preserves the rejection invariant (together with
the run invariant). -/
theorem RejectInv_step (cfg : Cfg) (park attr m : String) (e : ℤ)
    (hg : GoodCfg cfg) (hm : m = MODE_DPA ∨ m = MODE_PP)
    (he : effSelloutHour cfg park attr m = some e) (hle : e ≤ cfg.openHour) :
    ∀ s s', (step cfg s = .cont s' ∨ step cfg s = .halt s') →
      (RunInv cfg s ∧ RejectInv cfg park attr m s) →
      RunInv cfg s' ∧ RejectInv cfg park attr m s' := by
  intro s s' hs hP
  obtain ⟨hInv, hRej⟩ := hP
  refine ⟨RunInv_step cfg hg s s' hs hInv, ?_⟩
  have hres : s' = resState (step cfg s) := by
    rcases hs with hs | hs <;> rw [hs] <;> rfl
  rw [hres]
  have hmw : m ≠ MODE_WAIT := by
    rcases hm with h | h <;> subst h <;> decide
  have hme : m ≠ "" := by
    rcases hm with h | h <;> subst h <;> decide
  have ht0 : 0 ≤ s.t := hInv.1
  have hbt : (bookPhase cfg s).t = s.t := (bookPhase_state cfg s).1
  have hbp0 : 0 ≤ (bookPhase cfg s).t := by omega
  have hRej2 : RejectInv cfg park attr m (bookPhase cfg s) :=
    RejectInv_bookPhase cfg park attr m e s he hle ht0 hRej
  refine step_cases cfg s (motive := fun r => RejectInv cfg park attr m (resState r))
    ?_ ?_ ?_ ?_ ?_ ?_ ?_
  · intro _
    exact hRej
  · intro idx ret ht hfb
    exact RejectInv_doBooked cfg park attr m s idx ret hRej hfb
  · intro idx ret ht hfb hfb2
    exact RejectInv_doBooked cfg park attr m (bookPhase cfg s) idx ret hRej2 hfb2
  · intro idx task ht hfb hfb2 hpw
    obtain ⟨hget, -, hmode⟩ := pickWaitReady_valid cfg _ _ idx task hpw
    exact RejectInv_doWait cfg park attr m (bookPhase cfg s) idx task hmw hRej2 hget hmode
  · intro ht hfb hfb2 hpw hnb
    exact hRej2
  · intro nb ht hfb hfb2 hpw hnb hlt
    unfold appendIdle
    constructor
    · intro x hx hp ha hm'
      exact hRej2.1 x hx hp ha hm'
    · intro r hr
      rcases List.mem_append.mp hr with hr | hr
      · exact hRej2.2 r hr
      · simp only [List.mem_singleton] at hr
        subst hr
        rintro ⟨-, -, hm'⟩
        exact hme hm'.symm
  · intro nb ht hfb hfb2 hpw hnb hlt
    dsimp only [resState]
    exact ⟨fun x hx => hRej2.1 x hx, fun r hr => hRej2.2 r hr⟩

/-- C2 (amended): when the key's effective sellout hour (the raw
sellout-hour entry divided by the crowd/speed coefficient and rounded) is
at most the operating window's open hour, `build_schedule` never emits a
timeline row for that activity and mode, no such task is ever booked, and
every such task the booking phase retired carries its sellout note in the
notes list. -/
theorem effective_sold_out_reject (cfg : Cfg) (plans : List Plan)
    (park attr m : String) (e : ℤ)
    (hg : GoodCfg cfg) (hp : GoodPlans plans)
    (hm : m = MODE_DPA ∨ m = MODE_PP)
    (he : effSelloutHour cfg park attr m = some e) (hle : e ≤ cfg.openHour) :
    (∀ r ∈ (buildSchedule cfg plans).timeline,
      ¬(r.park = park ∧ r.attraction = attr ∧ r.mode = m)) ∧
    (∀ task ∈ (buildSchedule cfg plans).tasks,
      task.park = park → task.attraction = attr → task.mode = m →
      task.status ≠ .booked ∧
      (task.status = .done → selloutNote attr m ∈ (buildSchedule cfg plans).notes)) := by
  have hfin : RunInv cfg (buildSchedule cfg plans) ∧
      RejectInv cfg park attr m (buildSchedule cfg plans) := by
    apply buildSchedule_preserves cfg plans
      (fun s => RunInv cfg s ∧ RejectInv cfg park attr m s)
      (RejectInv_step cfg park attr m e hg hm he hle)
    refine ⟨RunInv_init cfg plans hp, ?_, ?_⟩
    · intro task htk hp' ha' hm'
      simp only [initState, List.mem_map] at htk
      obtain ⟨q, -, hq⟩ := htk
      subst hq
      refine ⟨by simp [planToTask], by simp [planToTask]⟩
    · intro r hr
      simp [initState] at hr
  exact ⟨hfin.2.2, hfin.2.1⟩

/-- The configuration of the C2 witness: crowd ★★★ (speed 1.0), a PP
sellout entry at hour 8 whose effective sellout hour is also 8, one hour
before the open. -/
def rejectWitCfg : Cfg := ⟨[], [⟨"TDS", "B", none, some 8⟩], [], 3, 0, 9, 21⟩

/-- The plans of the C2 witness. -/
def rejectWitPlans : List Plan := [⟨"TDS", "B", MODE_PP, some 5, none⟩]

/-- C2 witness: with effective sellout hour 8 ≤ open hour 9, the run
never rows the activity and any retirement is noted. -/
theorem effective_sold_out_reject_witness :
    GoodCfg rejectWitCfg ∧ GoodPlans rejectWitPlans ∧
    (MODE_PP = MODE_DPA ∨ MODE_PP = MODE_PP) ∧
    effSelloutHour rejectWitCfg "TDS" "B" MODE_PP = some 8 ∧
    (8 : ℤ) ≤ rejectWitCfg.openHour ∧
    ((∀ r ∈ (buildSchedule rejectWitCfg rejectWitPlans).timeline,
      ¬(r.park = "TDS" ∧ r.attraction = "B" ∧ r.mode = MODE_PP)) ∧
    (∀ task ∈ (buildSchedule rejectWitCfg rejectWitPlans).tasks,
      task.park = "TDS" → task.attraction = "B" → task.mode = MODE_PP →
      task.status ≠ .booked ∧
      (task.status = .done →
        selloutNote "B" MODE_PP ∈ (buildSchedule rejectWitCfg rejectWitPlans).notes))) :=
  ⟨by decide, by decide, Or.inr rfl, by decide, by decide,
    effective_sold_out_reject rejectWitCfg rejectWitPlans "TDS" "B" MODE_PP 8
      (by decide) (by decide) (Or.inr rfl) (by decide) (by decide)⟩

/-- C7: when a booking's returned slot time equals the booking clock (an
immediate consume), `book_one` leaves both reservation rights untouched
(no cooldown), and after the subsequent `do_booked` consume the mode's
right is Ready: its next-allowed time is at most the new clock. -/
theorem immediate_consume_no_cooldown_ready (cfg : Cfg) (s : SimState) (m : String)
    (e : BookEvent) (idx : ℕ) (task : SimTask)
    (hi : 0 ≤ cfg.intervalMin)
    (hb : (bookOne cfg m s).1.bookLog = s.bookLog ++ [e])
    (heq : e.slot = e.bookedAt)
    (hidx : (bookOne cfg m s).1.tasks.get? idx = some task)
    (hst : task.status = .booked)
    (hmode : task.mode = m) :
    ((bookOne cfg m s).1.nextDpa = s.nextDpa ∧ (bookOne cfg m s).1.nextPp = s.nextPp) ∧
    (m = MODE_DPA →
      (doBooked cfg (bookOne cfg m s).1 idx).nextDpa ≤
        (doBooked cfg (bookOne cfg m s).1 idx).t) ∧
    (m = MODE_PP →
      (doBooked cfg (bookOne cfg m s).1 idx).nextPp ≤
        (doBooked cfg (bookOne cfg m s).1 idx).t) := by
  refine ⟨⟨(bookOne_unchanged cfg m s).2.1, (bookOne_unchanged cfg m s).2.2.1⟩, ?_, ?_⟩
  · intro hd
    have hmd : (task.mode == MODE_DPA) = true := by
      rw [hmode, hd]
      exact beq_self_eq_true _
    rw [doBooked_state cfg (bookOne cfg m s).1 idx task hidx]
    dsimp only
    rw [hmd]
    simp only [if_true]
    exact le_trans (min_le_right _ _) (by omega)
  · intro hd
    have hmd : (task.mode == MODE_PP) = true := by
      rw [hmode, hd]
      exact beq_self_eq_true _
    rw [doBooked_state cfg (bookOne cfg m s).1 idx task hidx]
    dsimp only
    rw [hmd]
    simp only [if_true]
    exact le_trans (min_le_right _ _) (by omega)

/-- The one-DPA-plan state of the C7 witness. -/
def dpaWitState : SimState := initState [⟨"P", "A", MODE_DPA, some 5, none⟩]

/-- The booked task of the C7 witness. -/
def dpaWitTask : SimTask := ⟨"P", "A", MODE_DPA, 5, .booked, some 0, none⟩

/-- C7 witness: booking the single DPA plan at clock 0 books an immediate
slot (slot time 0 = booking time); the rights are unchanged and after the
consume the DPA right is Ready. -/
theorem immediate_consume_no_cooldown_ready_witness :
    (0 : ℤ) ≤ plainCfg.intervalMin ∧
    (bookOne plainCfg MODE_DPA dpaWitState).1.bookLog =
      dpaWitState.bookLog ++ [⟨MODE_DPA, 0, 0⟩] ∧
    (BookEvent.mk MODE_DPA 0 0).slot = (BookEvent.mk MODE_DPA 0 0).bookedAt ∧
    (bookOne plainCfg MODE_DPA dpaWitState).1.tasks.get? 0 = some dpaWitTask ∧
    dpaWitTask.status = .booked ∧
    dpaWitTask.mode = MODE_DPA ∧
    (((bookOne plainCfg MODE_DPA dpaWitState).1.nextDpa = dpaWitState.nextDpa ∧
      (bookOne plainCfg MODE_DPA dpaWitState).1.nextPp = dpaWitState.nextPp) ∧
    (MODE_DPA = MODE_DPA →
      (doBooked plainCfg (bookOne plainCfg MODE_DPA dpaWitState).1 0).nextDpa ≤
        (doBooked plainCfg (bookOne plainCfg MODE_DPA dpaWitState).1 0).t) ∧
    (MODE_DPA = MODE_PP →
      (doBooked plainCfg (bookOne plainCfg MODE_DPA dpaWitState).1 0).nextPp ≤
        (doBooked plainCfg (bookOne plainCfg MODE_DPA dpaWitState).1 0).t)) :=
  ⟨by decide, by decide, rfl, by decide, rfl, rfl,
    immediate_consume_no_cooldown_ready plainCfg dpaWitState MODE_DPA
      ⟨MODE_DPA, 0, 0⟩ 0 dpaWitTask (by decide) (by decide) rfl (by decide) rfl rfl⟩

/-- The plans of the C5 counterexample: the second queue task has a
negative wait override, which `do_wait` feeds into the ride start
unchecked. -/
def negWaitCxPlans : List Plan :=
  [⟨"TDS", "A", MODE_WAIT, some 5, some 300⟩, ⟨"TDS", "B", MODE_WAIT, some 5, some (-400)⟩]

/-- C5 counterexample: with a negative wait override the second emitted
row starts at −155, before the first row's start 300 — the timeline's
start times are not non-decreasing for every run. -/
theorem timeline_not_sorted_counterexample :
    (buildSchedule zeroStepCxCfg negWaitCxPlans).timeline.map
      (fun r => r.startMin) = [300, -155] ∧
    ¬ List.Chain' (fun a b : Row => a.startMin ≤ b.startMin)
        (buildSchedule zeroStepCxCfg negWaitCxPlans).timeline := by
  have hmap : (buildSchedule zeroStepCxCfg negWaitCxPlans).timeline.map
      (fun r => r.startMin) = [300, -155] := by decide
  refine ⟨hmap, ?_⟩
  intro hch
  have hch' : List.Chain' (fun a b : ℤ => a ≤ b)
      ((buildSchedule zeroStepCxCfg negWaitCxPlans).timeline.map
        (fun r => r.startMin)) := (List.chain'_map _).mpr hch
  rw [hmap] at hch'
  have := List.Chain'.rel_head hch'
  omega
